import Mathlib

/-!
# MyTinySTL: iterators, object lifetime and the allocator

A shallow embedding of `MyTinySTL/iterator.h` (the iterator category tags, the
trait extraction and the category predicates, the tag-dispatched algorithms
`distance` and `advance`, the class template `reverse_iterator`), of
`MyTinySTL/construct.h` (`construct`, `destroy`) and of `MyTinySTL/allocator.h`
(`allocate`, `deallocate`).

Conventions of the embedding.

* A C++ cursor (iterator) type `Iterator` becomes a Lean type `I` together with a
  record `cursor_ops I R` of the operators the templates call on it (`++`, `--`,
  `+=`, `-=`, `+`, `-`, `==`, `!=`, `<`, unary `*`) and the category tag that
  `iterator_traits<Iterator>` extracts. The templates are translated once,
  over an arbitrary record.
* `difference_type` and the template parameter `Distance` are the integers `Int`.
  The loop counters of `advance` only move between their argument and `-1` or
  `1`, so they stay inside every signed integral type that holds the argument;
  the counter of `distance` holds the number of steps taken so far, which the
  `difference_type` of a cursor type is there to represent.
* A `while` loop is a function recursive on a fuel argument; it answers `none`
  when the fuel runs out before the loop condition fails. Termination of a loop
  is the statement that every fuel above an explicit bound gives `some` result.
* A member operator returns the state of the object after the call paired with
  the value the C++ operator returns. When C++ returns `*this` by reference,
  the returned value is the new state itself; a `const` operator works on
  copies, and the state it returns is the one it was called on. The getter
  `base()` is a plain function of the object.
* Overload resolution on the tag argument picks the overload whose parameter is
  the nearest base class of the argument's tag. A call that is ill-formed (no
  viable overload, or an unqualified name that lookup does not find) has no
  result: `none`.
* An address is a natural number and `nullptr` is `0`. Constructor and
  destructor calls are recorded in a log of lifetime events; the calls of the
  global `::operator new` and `::operator delete` are recorded in a heap that
  also holds the live storage blocks.
* `size_type` is an unsigned integer of `w` bits: a value is a natural number
  below `2 ^ w` and the product `n * sizeof(T)` is reduced modulo `2 ^ w`.
-/

namespace mystl

/-! ## Category tags (iterator.h, lines 16-20) -/

/-- The five tag structs of iterator.h. -/
inductive iterator_tag where
  | input_iterator_tag
  | output_iterator_tag
  | forward_iterator_tag
  | bidirectional_iterator_tag
  | random_access_iterator_tag
  deriving DecidableEq, Repr

open iterator_tag

/-- The direct public base class of a tag struct, when it has one:
`forward : input`, `bidirectional : forward`, `random_access : bidirectional`. -/
def iterator_tag.base : iterator_tag → Option iterator_tag
  | input_iterator_tag => none
  | output_iterator_tag => none
  | forward_iterator_tag => some input_iterator_tag
  | bidirectional_iterator_tag => some forward_iterator_tag
  | random_access_iterator_tag => some bidirectional_iterator_tag

/-- The tag itself followed by its base classes, nearest first. -/
def iterator_tag.bases : iterator_tag → List iterator_tag
  | input_iterator_tag => [input_iterator_tag]
  | output_iterator_tag => [output_iterator_tag]
  | forward_iterator_tag => [forward_iterator_tag, input_iterator_tag]
  | bidirectional_iterator_tag =>
      [bidirectional_iterator_tag, forward_iterator_tag, input_iterator_tag]
  | random_access_iterator_tag =>
      [random_access_iterator_tag, bidirectional_iterator_tag,
        forward_iterator_tag, input_iterator_tag]

/-- Overload resolution for a function overloaded on a by-value tag parameter:
among the overloads whose parameter type the argument converts to, the one
nearest in the derivation chain wins; `none` when no overload is viable. -/
def select_overload (overloads : List iterator_tag) (t : iterator_tag) :
    Option iterator_tag :=
  t.bases.find? (fun b => decide (b ∈ overloads))

/-! ## Cursor types -/

/-- The operators the templates of iterator.h call on a cursor type `I` whose
`reference` type is `R`, and the tag `iterator_traits<I>::iterator_category`. -/
structure cursor_ops (I : Type) (R : Type) where
  /-- The tag extracted by `iterator_traits`. -/
  iterator_category : iterator_tag
  /-- Prefix `++i`: the state of `i` afterwards. -/
  inc : I → I
  /-- Prefix `--i`: the state of `i` afterwards. -/
  dec : I → I
  /-- Compound `i += n`: the state of `i` afterwards. -/
  add_assign : I → Int → I
  /-- Compound `i -= n`: the state of `i` afterwards. -/
  sub_assign : I → Int → I
  /-- Binary `i + n`. -/
  plus : I → Int → I
  /-- Binary `i - n`. -/
  minus : I → Int → I
  /-- Binary `a - b` on two cursors. -/
  diff : I → I → Int
  /-- Comparison `a == b`. -/
  eq : I → I → Bool
  /-- Comparison `a != b`. -/
  ne : I → I → Bool
  /-- Comparison `a < b`. -/
  lt : I → I → Bool
  /-- Unary `*i`; `none` when `i` addresses no element. -/
  deref : I → Option R

/-- The function `iterator_category(const Iterator&)` (lines 145-151): a value
of the tag type that `iterator_traits` names. -/
def iterator_category {I R : Type} (ops : cursor_ops I R) (_i : I) : iterator_tag :=
  ops.iterator_category

/-! ## distance (lines 172-200) -/

/-- The loop `while (first != last) { ++first; ++n; }` followed by `return n`. -/
def distance_loop {I R : Type} (ops : cursor_ops I R) : Nat → I → I → Int → Option Int
  | 0, _, _, _ => none
  | fuel + 1, first, last, n =>
      if ops.ne first last then distance_loop ops fuel (ops.inc first) last (n + 1)
      else some n

/-- The overload `distance_dispatch(first, last, input_iterator_tag)`. -/
def distance_dispatch_input {I R : Type} (ops : cursor_ops I R) (fuel : Nat)
    (first last : I) : Option Int :=
  distance_loop ops fuel first last 0

/-- The overload `distance_dispatch(first, last, random_access_iterator_tag)`. -/
def distance_dispatch_random_access {I R : Type} (ops : cursor_ops I R)
    (first last : I) : Option Int :=
  some (ops.diff last first)

/-- The parameter tags of the two overloads of `distance_dispatch`. -/
def distance_dispatch_overloads : List iterator_tag :=
  [input_iterator_tag, random_access_iterator_tag]

/-- The function `distance(first, last)`: calls
`distance_dispatch(first, last, iterator_category(first))`. It is `none` when no
overload accepts the tag or when the counting loop runs out of fuel. -/
def distance {I R : Type} (ops : cursor_ops I R) (fuel : Nat) (first last : I) :
    Option Int :=
  match select_overload distance_dispatch_overloads (iterator_category ops first) with
  | some input_iterator_tag => distance_dispatch_input ops fuel first last
  | some random_access_iterator_tag => distance_dispatch_random_access ops first last
  | _ => none

/-! ## advance (lines 205-235) -/

/-- The loop `while (n--) ++i;`: the test reads `n`, then `n` is decremented. -/
def advance_loop_inc {I R : Type} (ops : cursor_ops I R) : Nat → I → Int → Option I
  | 0, _, _ => none
  | fuel + 1, i, n =>
      if n ≠ 0 then advance_loop_inc ops fuel (ops.inc i) (n - 1) else some i

/-- The loop `while (n++) --i;`: the test reads `n`, then `n` is incremented. -/
def advance_loop_dec {I R : Type} (ops : cursor_ops I R) : Nat → I → Int → Option I
  | 0, _, _ => none
  | fuel + 1, i, n =>
      if n ≠ 0 then advance_loop_dec ops fuel (ops.dec i) (n + 1) else some i

/-- The overload `advance_dispatch(i, n, input_iterator_tag)`. -/
def advance_dispatch_input {I R : Type} (ops : cursor_ops I R) (fuel : Nat)
    (i : I) (n : Int) : Option I :=
  advance_loop_inc ops fuel i n

/-- The overload `advance_dispatch(i, n, bidirectional_iterator_tag)`. -/
def advance_dispatch_bidirectional {I R : Type} (ops : cursor_ops I R) (fuel : Nat)
    (i : I) (n : Int) : Option I :=
  if n ≥ 0 then advance_loop_inc ops fuel i n
  else advance_loop_dec ops fuel i n

/-- The overload `advance_dispatch(i, n, random_access_iterator_tag)`. -/
def advance_dispatch_random_access {I R : Type} (ops : cursor_ops I R)
    (i : I) (n : Int) : Option I :=
  some (ops.add_assign i n)

/-- The parameter tags of the three overloads of `advance_dispatch`. -/
def advance_dispatch_overloads : List iterator_tag :=
  [input_iterator_tag, bidirectional_iterator_tag, random_access_iterator_tag]

/-- The function `advance(i, n)`: calls `advance_dispatch(i, n, iterator_category(i))`
and leaves its result in `i`. The value is the state of `i` afterwards; `none`
when no overload accepts the tag or when a loop runs out of fuel. -/
def advance {I R : Type} (ops : cursor_ops I R) (fuel : Nat) (i : I) (n : Int) :
    Option I :=
  match select_overload advance_dispatch_overloads (iterator_category ops i) with
  | some input_iterator_tag => advance_dispatch_input ops fuel i n
  | some bidirectional_iterator_tag => advance_dispatch_bidirectional ops fuel i n
  | some random_access_iterator_tag => advance_dispatch_random_access ops i n
  | _ => none

/-! ## reverse_iterator (lines 241-380) -/

/-- The class template `reverse_iterator<Iterator>`: its one data member is the
wrapped forward-sense cursor `current`. The constructor
`explicit reverse_iterator(iterator_type i) : current(i)` is `reverse_iterator.mk`. -/
structure reverse_iterator (I : Type) where
  current : I
  deriving DecidableEq, Repr

namespace reverse_iterator

/-- The copy constructor `reverse_iterator(const self& rhs) : current(rhs.current)`. -/
def copy {I : Type} (rhs : reverse_iterator I) : reverse_iterator I :=
  ⟨rhs.current⟩

/-- The member `base() const`: returns `current`. -/
def base {I : Type} (self : reverse_iterator I) : I :=
  self.current

/-- The member `operator*() const`: `auto tmp = current; return *--tmp;`. The
decrement is applied to the local copy `tmp`; the first component is the state
of the adaptor afterwards, the second the reference returned. -/
def operator_star {I R : Type} (ops : cursor_ops I R) (self : reverse_iterator I) :
    reverse_iterator I × Option R :=
  let tmp := self.current
  let tmp := ops.dec tmp
  (self, ops.deref tmp)

/-- The member `operator++()`: `--current; return *this;`. -/
def operator_pre_increment {I R : Type} (ops : cursor_ops I R)
    (self : reverse_iterator I) : reverse_iterator I × reverse_iterator I :=
  let self1 : reverse_iterator I := ⟨ops.dec self.current⟩
  (self1, self1)

/-- The member `operator++(int)`: `self tmp = *this; --current; return tmp;`. -/
def operator_post_increment {I R : Type} (ops : cursor_ops I R)
    (self : reverse_iterator I) : reverse_iterator I × reverse_iterator I :=
  let tmp := copy self
  let self1 : reverse_iterator I := ⟨ops.dec self.current⟩
  (self1, tmp)

/-- The member `operator--()`: `++current; return *this;`. -/
def operator_pre_decrement {I R : Type} (ops : cursor_ops I R)
    (self : reverse_iterator I) : reverse_iterator I × reverse_iterator I :=
  let self1 : reverse_iterator I := ⟨ops.inc self.current⟩
  (self1, self1)

/-- The member `operator--(int)`: `self tmp = *this; ++current; return tmp;`. -/
def operator_post_decrement {I R : Type} (ops : cursor_ops I R)
    (self : reverse_iterator I) : reverse_iterator I × reverse_iterator I :=
  let tmp := copy self
  let self1 : reverse_iterator I := ⟨ops.inc self.current⟩
  (self1, tmp)

/-- The member `operator+=(n)`: `current -= n; return *this;`. -/
def operator_plus_assign {I R : Type} (ops : cursor_ops I R)
    (self : reverse_iterator I) (n : Int) : reverse_iterator I × reverse_iterator I :=
  let self1 : reverse_iterator I := ⟨ops.sub_assign self.current n⟩
  (self1, self1)

/-- The member `operator+(n) const`: `return self(current - n);`. -/
def operator_plus {I R : Type} (ops : cursor_ops I R)
    (self : reverse_iterator I) (n : Int) : reverse_iterator I × reverse_iterator I :=
  (self, reverse_iterator.mk (ops.minus self.current n))

/-- The member `operator-=(n)`: `current += n; return *this;`. -/
def operator_minus_assign {I R : Type} (ops : cursor_ops I R)
    (self : reverse_iterator I) (n : Int) : reverse_iterator I × reverse_iterator I :=
  let self1 : reverse_iterator I := ⟨ops.add_assign self.current n⟩
  (self1, self1)

/-- The member `operator-(n) const`: `return self(current + n);`. -/
def operator_minus {I R : Type} (ops : cursor_ops I R)
    (self : reverse_iterator I) (n : Int) : reverse_iterator I × reverse_iterator I :=
  (self, reverse_iterator.mk (ops.plus self.current n))

/-- The member `operator[](n) const`: `return *(*this + n);`. -/
def operator_subscript {I R : Type} (ops : cursor_ops I R)
    (self : reverse_iterator I) (n : Int) : reverse_iterator I × Option R :=
  let sum := operator_plus ops self n
  (sum.1, (operator_star ops sum.2).2)

/-- The free `operator-(lhs, rhs)`: `return rhs.base() - lhs.base();`. -/
def operator_difference {I R : Type} (ops : cursor_ops I R)
    (lhs rhs : reverse_iterator I) : Int :=
  ops.diff rhs.base lhs.base

/-- The free `operator==(lhs, rhs)`: `return lhs.base() == rhs.base();`. -/
def operator_eq {I R : Type} (ops : cursor_ops I R)
    (lhs rhs : reverse_iterator I) : Bool :=
  ops.eq lhs.base rhs.base

/-- The free `operator<(lhs, rhs)`: `return rhs.base() < lhs.base();`. -/
def operator_lt {I R : Type} (ops : cursor_ops I R)
    (lhs rhs : reverse_iterator I) : Bool :=
  ops.lt rhs.base lhs.base

/-- The free `operator!=(lhs, rhs)`: `return !(lhs == rhs);`. -/
def operator_ne {I R : Type} (ops : cursor_ops I R)
    (lhs rhs : reverse_iterator I) : Bool :=
  !(operator_eq ops lhs rhs)

/-- The free `operator>(lhs, rhs)`: `return rhs < lhs;`. -/
def operator_gt {I R : Type} (ops : cursor_ops I R)
    (lhs rhs : reverse_iterator I) : Bool :=
  operator_lt ops rhs lhs

/-- The free `operator<=(lhs, rhs)`: `return !(rhs < lhs);`. -/
def operator_le {I R : Type} (ops : cursor_ops I R)
    (lhs rhs : reverse_iterator I) : Bool :=
  !(operator_lt ops rhs lhs)

/-- The free `operator>=(lhs, rhs)`: `return !(lhs < rhs);`. -/
def operator_ge {I R : Type} (ops : cursor_ops I R)
    (lhs rhs : reverse_iterator I) : Bool :=
  !(operator_lt ops lhs rhs)

/-- A `reverse_iterator<Iterator>` as a cursor type of its own: its category is
the typedef `iterator_traits<Iterator>::iterator_category` (line 249) and its
operators are the members and free functions above. -/
def ops {I R : Type} (o : cursor_ops I R) : cursor_ops (reverse_iterator I) R where
  iterator_category := o.iterator_category
  inc := fun r => (operator_pre_increment o r).1
  dec := fun r => (operator_pre_decrement o r).1
  add_assign := fun r n => (operator_plus_assign o r n).1
  sub_assign := fun r n => (operator_minus_assign o r n).1
  plus := fun r n => (operator_plus o r n).2
  minus := fun r n => (operator_minus o r n).2
  diff := operator_difference o
  eq := operator_eq o
  ne := operator_ne o
  lt := operator_lt o
  deref := fun r => (operator_star o r).2

end reverse_iterator

/-! ## Cursor types the templates are instantiated with -/

/-- A reference to an element of a sequence: the slot it occupies and the value
stored there. -/
structure element_ref (α : Type) where
  slot : Nat
  value : α
  deriving DecidableEq, Repr

/-- A cursor into the sequence `a` that is a position counted from the first
element (position `a.length` is one past the last element), with the builtin
arithmetic and comparisons of an address, declared with category tag `t`.
Dereferencing a position outside `0 .. a.length - 1` gives no element. -/
def position_ops {α : Type} (t : iterator_tag) (a : List α) :
    cursor_ops Int (element_ref α) where
  iterator_category := t
  inc := fun p => p + 1
  dec := fun p => p - 1
  add_assign := fun p n => p + n
  sub_assign := fun p n => p - n
  plus := fun p n => p + n
  minus := fun p n => p - n
  diff := fun p q => p - q
  eq := fun p q => decide (p = q)
  ne := fun p q => decide (p ≠ q)
  lt := fun p q => decide (p < q)
  deref := fun p =>
    if 0 ≤ p then (a[p.toNat]?).map (fun v => ⟨p.toNat, v⟩) else none

/-- A raw address `T*` or `const T*` into the array `a`: the specializations
`iterator_traits<T*>` and `iterator_traits<const T*>` (lines 89-107) give it
the category `random_access_iterator_tag`. -/
def pointer_ops {α : Type} (a : List α) : cursor_ops Int (element_ref α) :=
  position_ops random_access_iterator_tag a

/-- One operator call recorded by a logging cursor. -/
inductive cursor_event where
  | increment
  | decrement
  | offset_add (n : Int)
  | offset_sub (n : Int)
  deriving DecidableEq, Repr

/-- A cursor that logs every mutating operator applied to it: its position and
the calls made so far, oldest first. -/
structure logging_cursor where
  pos : Int
  log : List cursor_event
  deriving DecidableEq, Repr

/-- The operators of the logging cursor, declared with category tag `t`:
`++`, `--`, `+=` and `-=` move the position and append to the log; the
comparisons and the difference read the positions only. -/
def logging_ops (t : iterator_tag) : cursor_ops logging_cursor Unit where
  iterator_category := t
  inc := fun c => ⟨c.pos + 1, c.log ++ [cursor_event.increment]⟩
  dec := fun c => ⟨c.pos - 1, c.log ++ [cursor_event.decrement]⟩
  add_assign := fun c n => ⟨c.pos + n, c.log ++ [cursor_event.offset_add n]⟩
  sub_assign := fun c n => ⟨c.pos - n, c.log ++ [cursor_event.offset_sub n]⟩
  plus := fun c n => ⟨c.pos + n, c.log⟩
  minus := fun c n => ⟨c.pos - n, c.log⟩
  diff := fun c d => c.pos - d.pos
  eq := fun c d => decide (c.pos = d.pos)
  ne := fun c d => decide (c.pos ≠ d.pos)
  lt := fun c d => decide (c.pos < d.pos)
  deref := fun _ => none

/-! ## Trait extraction and category predicates (iterator.h, lines 42-142) -/

/-- The type that a nested typedef `iterator_category` names: one of the five
tag structs, or a type that converts to none of them. -/
inductive category_member where
  | tag (t : iterator_tag)
  | other_type
  deriving DecidableEq, Repr

/-- A type handed to the traits: a raw address `T*`, a raw address `const T*`,
or any other type, described by its nested typedef `iterator_category` when it
declares one. -/
inductive cursor_type where
  | pointer
  | const_pointer
  | class_type (member : Option category_member)
  deriving DecidableEq, Repr

/-- The value `std::is_convertible<From, To>::value` for the type of a category
member and a tag struct: a tag converts to itself and to its public bases. -/
def is_convertible (source : category_member) (target : iterator_tag) : Bool :=
  match source with
  | category_member.tag t => decide (target ∈ t.bases)
  | category_member.other_type => false

/-- The value `has_iterator_cat<T>::value` (lines 42-51): whether `T` has a
nested type `iterator_category`. The argument is that nested type, if any. -/
def has_iterator_cat (member : Option category_member) : Bool :=
  member.isSome

/-- The nested type `iterator_category` of `iterator_traits_impl<Iterator, flag>`
(lines 58-69): the one of `Iterator` when the flag is true, none for the empty
primary template. -/
def iterator_traits_impl (member : category_member) (flag : Bool) :
    Option category_member :=
  if flag then some member else none

/-- The nested type `iterator_category` of `iterator_traits_helper<Iterator, flag>`
(lines 72-81): for a true flag the struct derives from `iterator_traits_impl`
with the flag "the category converts to `input_iterator_tag` or to
`output_iterator_tag`"; the primary template is empty. -/
def iterator_traits_helper (member : Option category_member) (flag : Bool) :
    Option category_member :=
  match flag, member with
  | true, some m =>
      iterator_traits_impl m
        (is_convertible m input_iterator_tag || is_convertible m output_iterator_tag)
  | _, _ => none

/-- The nested type `iterator_category` of `iterator_traits<T>` (lines 84-107):
`random_access_iterator_tag` for the two specializations on raw addresses,
else what `iterator_traits_helper<T, has_iterator_cat<T>::value>` has. -/
def iterator_traits : cursor_type → Option category_member
  | cursor_type.pointer => some (category_member.tag random_access_iterator_tag)
  | cursor_type.const_pointer => some (category_member.tag random_access_iterator_tag)
  | cursor_type.class_type member =>
      iterator_traits_helper member (has_iterator_cat member)

/-- The value `has_iterator_cat_of<T, U>::value` (lines 111-120): when
`has_iterator_cat<iterator_traits<T>>::value` is true, whether
`iterator_traits<T>::iterator_category` converts to `U`; false otherwise. -/
def has_iterator_cat_of (T : cursor_type) (U : iterator_tag) : Bool :=
  match has_iterator_cat (iterator_traits T), iterator_traits T with
  | true, some m => is_convertible m U
  | _, _ => false

/-- The value `is_input_iterator<Iter>::value`. -/
def is_input_iterator (T : cursor_type) : Bool :=
  has_iterator_cat_of T input_iterator_tag

/-- The value `is_output_iterator<Iter>::value`. -/
def is_output_iterator (T : cursor_type) : Bool :=
  has_iterator_cat_of T output_iterator_tag

/-- The value `is_forward_iterator<Iter>::value`. -/
def is_forward_iterator (T : cursor_type) : Bool :=
  has_iterator_cat_of T forward_iterator_tag

/-- The value `is_bidirectional_iterator<Iter>::value`. -/
def is_bidirectional_iterator (T : cursor_type) : Bool :=
  has_iterator_cat_of T bidirectional_iterator_tag

/-- The value `is_random_access_iterator<Iter>::value`. -/
def is_random_access_iterator (T : cursor_type) : Bool :=
  has_iterator_cat_of T random_access_iterator_tag

/-- The value `is_iterator<Iterator>::value` (lines 137-142). -/
def is_iterator (T : cursor_type) : Bool :=
  is_input_iterator T || is_output_iterator T

/-! ## construct and destroy (construct.h) -/

/-- The null address. -/
def nullptr : Nat := 0

/-- A constructor or destructor of the element type run on the object at an
address. -/
inductive lifetime_event where
  | constructor_call (p : Nat)
  | destructor_call (p : Nat)
  deriving DecidableEq, Repr

/-- The three overloads of `construct` (lines 23-40): each is one placement
`::new ((void*)ptr) Ty(...)`, which runs a constructor of `Ty` at `ptr`; they
differ in the constructor arguments, which the log does not keep. -/
def construct (ptr : Nat) (log : List lifetime_event) : List lifetime_event :=
  log ++ [lifetime_event.constructor_call ptr]

/-- The overload `destroy_one(Ty*, std::true_type)`: an empty body. -/
def destroy_one_trivial (_pointer : Nat) (log : List lifetime_event) :
    List lifetime_event :=
  log

/-- The overload `destroy_one(Ty* pointer, std::false_type)`:
`if (pointer != nullptr) pointer->~Ty();`. -/
def destroy_one_nontrivial (pointer : Nat) (log : List lifetime_event) :
    List lifetime_event :=
  if pointer ≠ nullptr then log ++ [lifetime_event.destructor_call pointer] else log

/-- The function `destroy(Ty* pointer)` (lines 69-74): dispatches on
`std::is_trivially_destructible<Ty>`, given as the first argument. -/
def destroy (trivially_destructible : Bool) (pointer : Nat)
    (log : List lifetime_event) : List lifetime_event :=
  if trivially_destructible then destroy_one_trivial pointer log
  else destroy_one_nontrivial pointer log

/-- The overload `destroy_cat(ForwardIter, ForwardIter, std::true_type)`: an
empty body. -/
def destroy_cat_trivial {I : Type} (_first _last : I) (log : List lifetime_event) :
    Option (List lifetime_event) :=
  some log

/-- Whether a function named `destroy` is declared above the body of
`destroy_cat` (construct.h, lines 62-67): the two `destroy` templates are
declared below it (lines 69-82), and `type_traits.h` and `iterator.h`, the
headers included before, declare none. -/
def destroy_declared_above_destroy_cat : Bool :=
  false

/-- Lookup of the unqualified name in the call `destroy(&*first)` of
`destroy_cat` (line 66), a call that depends on the template parameter:
ordinary lookup sees the declarations above the call, and argument-dependent
lookup at the point of instantiation sees `mystl::destroy` exactly when
namespace `mystl` is an associated namespace of the element type, which is the
argument. The value is whether `mystl::destroy` is found. -/
def destroy_lookup (mystl_is_associated : Bool) : Bool :=
  destroy_declared_above_destroy_cat || mystl_is_associated

/-- The loop of `destroy_cat(first, last, std::false_type)`:
`for (; first != last; ++first) destroy(&*first);`, with the call resolved to
the single-object `destroy`, which dispatches on the same element type. The
argument `address_of` is the builtin `&` on a reference. The result is `none`
when the fuel runs out or when `*first` is applied to a cursor that addresses
no element. -/
def destroy_cat_loop {I R : Type} (ops : cursor_ops I R) (address_of : R → Nat)
    (trivially_destructible : Bool) :
    Nat → I → I → List lifetime_event → Option (List lifetime_event)
  | 0, _, _, _ => none
  | fuel + 1, first, last, log =>
      if ops.ne first last then
        match ops.deref first with
        | some r =>
            destroy_cat_loop ops address_of trivially_destructible fuel
              (ops.inc first) last (destroy trivially_destructible (address_of r) log)
        | none => none
      else some log

/-- The overload `destroy_cat(first, last, std::false_type)` (lines 62-67). Its
instantiation is ill-formed, and the call has no result, when lookup does not
find `destroy` for the element type; otherwise it runs the loop. -/
def destroy_cat_nontrivial {I R : Type} (ops : cursor_ops I R) (address_of : R → Nat)
    (trivially_destructible mystl_is_associated : Bool) (fuel : Nat) (first last : I)
    (log : List lifetime_event) : Option (List lifetime_event) :=
  if destroy_lookup mystl_is_associated then
    destroy_cat_loop ops address_of trivially_destructible fuel first last log
  else none

/-- The function `destroy(ForwardIter first, ForwardIter last)` (lines 76-82):
dispatches on `std::is_trivially_destructible` of the cursor's `value_type`;
only the overload selected is instantiated. The element type is described by
whether it is trivially destructible and whether namespace `mystl` is one of
its associated namespaces. -/
def destroy_range {I R : Type} (ops : cursor_ops I R) (address_of : R → Nat)
    (trivially_destructible mystl_is_associated : Bool) (fuel : Nat) (first last : I)
    (log : List lifetime_event) : Option (List lifetime_event) :=
  if trivially_destructible then destroy_cat_trivial first last log
  else destroy_cat_nontrivial ops address_of trivially_destructible mystl_is_associated
    fuel first last log

/-- A live-object counter as an instrumented element type keeps it: raised by
each constructor call and lowered by each destructor call. -/
def live_objects : List lifetime_event → Int
  | [] => 0
  | lifetime_event.constructor_call _ :: rest => live_objects rest + 1
  | lifetime_event.destructor_call _ :: rest => live_objects rest - 1

/-- The addresses on which a destructor ran, oldest first. -/
def destructor_calls : List lifetime_event → List Nat
  | [] => []
  | lifetime_event.constructor_call _ :: rest => destructor_calls rest
  | lifetime_event.destructor_call p :: rest => p :: destructor_calls rest

/-- A loop `for (p : ptrs) construct(p);`: objects constructed one after the other
at the given addresses. -/
def construct_each (ptrs : List Nat) (log : List lifetime_event) : List lifetime_event :=
  ptrs.foldl (fun l p => construct p l) log

/-! ## allocator (allocator.h) -/

/-- A call of the global allocation functions of the C++ runtime. -/
inductive heap_call where
  | operator_new (bytes : Nat)
  | operator_delete (p : Nat)
  deriving DecidableEq, Repr

/-- The free store: the live storage blocks, each an address with its size in
bytes, and the calls of `::operator new` and `::operator delete` made so far,
oldest first. -/
structure heap where
  blocks : List (Nat × Nat)
  calls : List heap_call
  deriving DecidableEq, Repr

/-- The global `::operator new(bytes)` of the C++ runtime. The argument `sys` is
the address the runtime picks for a request on a given free store, `none`
when it throws `std::bad_alloc`; on success the block becomes live and the
call is logged, and an exception propagates as `none`. -/
def operator_new (sys : heap → Nat → Option Nat) (bytes : Nat) (h : heap) :
    Option (Nat × heap) :=
  match sys h bytes with
  | some p => some (p, ⟨(p, bytes) :: h.blocks, h.calls ++ [heap_call.operator_new bytes]⟩)
  | none => none

/-- The global `::operator delete(ptr)` of the C++ runtime: the block at `ptr`
is no longer live and the call is logged. -/
def operator_delete (ptr : Nat) (h : heap) : heap :=
  ⟨h.blocks.filter (fun b => decide (b.1 ≠ ptr)), h.calls ++ [heap_call.operator_delete ptr]⟩

namespace allocator

/-- The function `allocator<T>::allocate()`:
`return static_cast<T*>(::operator new(sizeof(T)));`. -/
def allocate (sys : heap → Nat → Option Nat) (sizeof_T : Nat) (h : heap) :
    Option (Nat × heap) :=
  operator_new sys sizeof_T h

/-- The function `allocator<T>::allocate(size_type n)`: `if (n == 0) return nullptr;`
then `return static_cast<T*>(::operator new(n * sizeof(T)));`, the product taken
in `size_type`, an unsigned integer of `w` bits. -/
def allocate_n (sys : heap → Nat → Option Nat) (w sizeof_T : Nat) (n : Nat) (h : heap) :
    Option (Nat × heap) :=
  if n = 0 then some (nullptr, h)
  else operator_new sys ((n * sizeof_T) % 2 ^ w) h

/-- The function `allocator<T>::deallocate(T* ptr)`: `if (ptr == nullptr) return;`
then `::operator delete(ptr);`. -/
def deallocate (ptr : Nat) (h : heap) : heap :=
  if ptr = nullptr then h else operator_delete ptr h

/-- The function `allocator<T>::deallocate(T* ptr, size_type)`: the count is
unnamed and unused; `if (ptr == nullptr) return;` then `::operator delete(ptr);`. -/
def deallocate_n (ptr : Nat) (_n : Nat) (h : heap) : heap :=
  if ptr = nullptr then h else operator_delete ptr h

/-- The function `allocator<T>::destroy(T* ptr)`: `mystl::destroy(ptr);`. -/
def destroy (trivially_destructible : Bool) (ptr : Nat) (log : List lifetime_event) :
    List lifetime_event :=
  mystl.destroy trivially_destructible ptr log

/-- One `allocate(n)` followed immediately by `deallocate(result, n)`; `none`
when the allocation throws. -/
def allocate_then_deallocate (sys : heap → Nat → Option Nat) (w sizeof_T : Nat)
    (n : Nat) (h : heap) : Option heap :=
  match allocate_n sys w sizeof_T n h with
  | some (p, h1) => some (deallocate_n p n h1)
  | none => none

/-- The pair `allocate(n)`, `deallocate(result, n)` repeated `k` times. -/
def repeat_pair (sys : heap → Nat → Option Nat) (w sizeof_T : Nat) (n : Nat) :
    Nat → heap → Option heap
  | 0, h => some h
  | k + 1, h =>
      match allocate_then_deallocate sys w sizeof_T n h with
      | some h1 => repeat_pair sys w sizeof_T n k h1
      | none => none

end allocator

/-- An underlying allocator that always succeeds: it hands out the address one
above every live block. -/
def bump_allocator (h : heap) (_bytes : Nat) : Option Nat :=
  some ((h.blocks.map Prod.fst).foldr max 0 + 1)

/-! ## Lemmas on overload selection and on the loops -/

theorem select_distance_overload (t : iterator_tag) :
    select_overload distance_dispatch_overloads t =
      match t with
      | input_iterator_tag => some input_iterator_tag
      | output_iterator_tag => none
      | forward_iterator_tag => some input_iterator_tag
      | bidirectional_iterator_tag => some input_iterator_tag
      | random_access_iterator_tag => some random_access_iterator_tag := by
  cases t <;> decide

theorem select_advance_overload (t : iterator_tag) :
    select_overload advance_dispatch_overloads t =
      match t with
      | input_iterator_tag => some input_iterator_tag
      | output_iterator_tag => none
      | forward_iterator_tag => some input_iterator_tag
      | bidirectional_iterator_tag => some bidirectional_iterator_tag
      | random_access_iterator_tag => some random_access_iterator_tag := by
  cases t <;> decide

theorem distance_loop_reaches {I R : Type} (ops : cursor_ops I R) (last : I) :
    ∀ (k fuel : Nat) (first : I) (n : Int),
      ops.ne (ops.inc^[k] first) last = false →
      (∀ j, j < k → ops.ne (ops.inc^[j] first) last = true) →
      k < fuel → distance_loop ops fuel first last n = some (n + k) := by
  intro k
  induction k with
  | zero =>
    intro fuel first n hreach _ hfuel
    obtain ⟨f, rfl⟩ : ∃ f, fuel = f + 1 := ⟨fuel - 1, by omega⟩
    simp only [Function.iterate_zero, id_eq] at hreach
    simp [distance_loop, hreach]
  | succ k ih =>
    intro fuel first n hreach hmin hfuel
    obtain ⟨f, rfl⟩ : ∃ f, fuel = f + 1 := ⟨fuel - 1, by omega⟩
    have h0 : ops.ne first last = true := by
      have := hmin 0 (Nat.succ_pos k)
      simpa using this
    have hstep : distance_loop ops f (ops.inc first) last (n + 1) = some (n + 1 + k) := by
      apply ih
      · simpa [Function.iterate_succ_apply] using hreach
      · intro j hj
        have := hmin (j + 1) (by omega)
        simpa [Function.iterate_succ_apply] using this
      · omega
    simp only [distance_loop, h0, if_true, hstep]
    congr 1
    push_cast
    ring

theorem distance_loop_starved {I R : Type} (ops : cursor_ops I R) (last : I) :
    ∀ (fuel : Nat) (first : I) (n : Int),
      (∀ j, j < fuel → ops.ne (ops.inc^[j] first) last = true) →
      distance_loop ops fuel first last n = none := by
  intro fuel
  induction fuel with
  | zero => intro first n _; rfl
  | succ f ih =>
    intro first n hmin
    have h0 : ops.ne first last = true := by
      have := hmin 0 (Nat.succ_pos f)
      simpa using this
    simp only [distance_loop, h0, if_true]
    apply ih
    intro j hj
    have := hmin (j + 1) (by omega)
    simpa [Function.iterate_succ_apply] using this

theorem advance_loop_inc_steps {I R : Type} (ops : cursor_ops I R) :
    ∀ (k fuel : Nat) (i : I), k < fuel →
      advance_loop_inc ops fuel i (k : Int) = some (ops.inc^[k] i) := by
  intro k
  induction k with
  | zero =>
    intro fuel i hfuel
    obtain ⟨f, rfl⟩ : ∃ f, fuel = f + 1 := ⟨fuel - 1, by omega⟩
    simp [advance_loop_inc]
  | succ k ih =>
    intro fuel i hfuel
    obtain ⟨f, rfl⟩ : ∃ f, fuel = f + 1 := ⟨fuel - 1, by omega⟩
    have hne : ((k + 1 : Nat) : Int) ≠ 0 := by omega
    have hpred : ((k + 1 : Nat) : Int) - 1 = (k : Int) := by omega
    simp only [advance_loop_inc, hne, ne_eq, not_false_eq_true, if_true, hpred]
    rw [ih f (ops.inc i) (by omega)]
    simp [Function.iterate_succ_apply]

theorem advance_loop_dec_steps {I R : Type} (ops : cursor_ops I R) :
    ∀ (k fuel : Nat) (i : I), k < fuel →
      advance_loop_dec ops fuel i (-(k : Int)) = some (ops.dec^[k] i) := by
  intro k
  induction k with
  | zero =>
    intro fuel i hfuel
    obtain ⟨f, rfl⟩ : ∃ f, fuel = f + 1 := ⟨fuel - 1, by omega⟩
    simp [advance_loop_dec]
  | succ k ih =>
    intro fuel i hfuel
    obtain ⟨f, rfl⟩ : ∃ f, fuel = f + 1 := ⟨fuel - 1, by omega⟩
    have hne : -((k + 1 : Nat) : Int) ≠ 0 := by omega
    have hsucc : -((k + 1 : Nat) : Int) + 1 = -(k : Int) := by omega
    simp only [advance_loop_dec, hne, ne_eq, not_false_eq_true, if_true, hsucc]
    rw [ih f (ops.dec i) (by omega)]
    simp [Function.iterate_succ_apply]

theorem advance_loop_inc_negative {I R : Type} (ops : cursor_ops I R) :
    ∀ (fuel : Nat) (i : I) (n : Int), n < 0 → advance_loop_inc ops fuel i n = none := by
  intro fuel
  induction fuel with
  | zero => intro i n _; rfl
  | succ f ih =>
    intro i n hn
    have hne : n ≠ 0 := by omega
    simp only [advance_loop_inc, hne, ne_eq, not_false_eq_true, if_true]
    exact ih _ _ (by omega)

theorem position_inc_iterate {α : Type} (t : iterator_tag) (a : List α) :
    ∀ (k : Nat) (p : Int), (position_ops t a).inc^[k] p = p + k := by
  intro k
  induction k with
  | zero => intro p; simp
  | succ k ih =>
    intro p
    rw [Function.iterate_succ_apply, ih]
    show p + 1 + (k : Int) = p + ((k + 1 : Nat) : Int)
    push_cast
    ring

theorem position_dec_iterate {α : Type} (t : iterator_tag) (a : List α) :
    ∀ (k : Nat) (p : Int), (position_ops t a).dec^[k] p = p - k := by
  intro k
  induction k with
  | zero => intro p; simp
  | succ k ih =>
    intro p
    rw [Function.iterate_succ_apply, ih]
    show p - 1 - (k : Int) = p - ((k + 1 : Nat) : Int)
    push_cast
    ring

theorem logging_inc_iterate (t : iterator_tag) :
    ∀ (k : Nat) (c : logging_cursor),
      (logging_ops t).inc^[k] c
        = ⟨c.pos + k, c.log ++ List.replicate k cursor_event.increment⟩ := by
  intro k
  induction k with
  | zero => intro c; simp
  | succ k ih =>
    intro c
    rw [Function.iterate_succ_apply, ih]
    show logging_cursor.mk (c.pos + 1 + (k : Int))
        ((c.log ++ [cursor_event.increment]) ++ List.replicate k cursor_event.increment)
      = ⟨c.pos + ((k + 1 : Nat) : Int), c.log ++ List.replicate (k + 1) cursor_event.increment⟩
    have hpos : c.pos + 1 + (k : Int) = c.pos + ((k + 1 : Nat) : Int) := by
      push_cast
      ring
    rw [hpos, List.append_assoc, List.replicate_succ]
    rfl

theorem logging_dec_iterate (t : iterator_tag) :
    ∀ (k : Nat) (c : logging_cursor),
      (logging_ops t).dec^[k] c
        = ⟨c.pos - k, c.log ++ List.replicate k cursor_event.decrement⟩ := by
  intro k
  induction k with
  | zero => intro c; simp
  | succ k ih =>
    intro c
    rw [Function.iterate_succ_apply, ih]
    show logging_cursor.mk (c.pos - 1 - (k : Int))
        ((c.log ++ [cursor_event.decrement]) ++ List.replicate k cursor_event.decrement)
      = ⟨c.pos - ((k + 1 : Nat) : Int), c.log ++ List.replicate (k + 1) cursor_event.decrement⟩
    have hpos : c.pos - 1 - (k : Int) = c.pos - ((k + 1 : Nat) : Int) := by
      push_cast
      ring
    rw [hpos, List.append_assoc, List.replicate_succ]
    rfl

/-- The overload for `bidirectional_iterator_tag` takes `|n|` single steps in
the direction of the sign of `n`. -/
theorem advance_dispatch_bidirectional_steps {I R : Type} (ops : cursor_ops I R)
    (i : I) (n : Int) (fuel : Nat) (hfuel : n.natAbs < fuel) :
    advance_dispatch_bidirectional ops fuel i n
      = some (if 0 ≤ n then ops.inc^[n.toNat] i else ops.dec^[(-n).toNat] i) := by
  unfold advance_dispatch_bidirectional
  by_cases hn : 0 ≤ n
  · have hcast : ((n.toNat : Nat) : Int) = n := Int.toNat_of_nonneg hn
    have h := advance_loop_inc_steps ops n.toNat fuel i (by omega)
    rw [hcast] at h
    simp only [ge_iff_le, hn, if_true, h]
  · have hneg : 0 ≤ -n := by omega
    have hcast : -(((-n).toNat : Nat) : Int) = n := by
      rw [Int.toNat_of_nonneg hneg]
      omega
    have h := advance_loop_dec_steps ops (-n).toNat fuel i (by omega)
    rw [hcast] at h
    simp only [ge_iff_le, hn, if_false, h]

/-- A type whose traits extract the category `m` answers each predicate with
the convertibility of `m` to the tag asked for. -/
theorem has_iterator_cat_of_extracted (T : cursor_type) (m : category_member)
    (U : iterator_tag) (h : iterator_traits T = some m) :
    has_iterator_cat_of T U = is_convertible m U := by
  simp [has_iterator_cat_of, h, has_iterator_cat]

theorem live_objects_append (l1 l2 : List lifetime_event) :
    live_objects (l1 ++ l2) = live_objects l1 + live_objects l2 := by
  induction l1 with
  | nil => simp [live_objects]
  | cons e rest ih =>
    cases e
    · show live_objects (rest ++ l2) + 1 = live_objects rest + 1 + live_objects l2
      rw [ih]
      ring
    · show live_objects (rest ++ l2) - 1 = live_objects rest - 1 + live_objects l2
      rw [ih]
      ring

theorem live_objects_destructor_calls (ps : List Nat) :
    live_objects (ps.map lifetime_event.destructor_call) = -(ps.length : Int) := by
  induction ps with
  | nil => simp [live_objects]
  | cons p rest ih =>
    simp only [List.map_cons, live_objects, ih, List.length_cons]
    push_cast
    ring

theorem destructor_calls_append (l1 l2 : List lifetime_event) :
    destructor_calls (l1 ++ l2) = destructor_calls l1 ++ destructor_calls l2 := by
  induction l1 with
  | nil => simp [destructor_calls]
  | cons e rest ih =>
    cases e
    · show destructor_calls (rest ++ l2) = destructor_calls rest ++ destructor_calls l2
      exact ih
    · show _ :: destructor_calls (rest ++ l2)
        = _ :: destructor_calls rest ++ destructor_calls l2
      rw [ih]
      rfl

theorem destructor_calls_of_destructor_calls (ps : List Nat) :
    destructor_calls (ps.map lifetime_event.destructor_call) = ps := by
  induction ps with
  | nil => simp [destructor_calls]
  | cons p rest ih => simp only [List.map_cons, destructor_calls, ih]

theorem construct_each_eq_append (ps : List Nat) :
    ∀ log, construct_each ps log = log ++ ps.map lifetime_event.constructor_call := by
  induction ps with
  | nil => intro log; simp [construct_each]
  | cons p rest ih =>
    intro log
    have h := ih (construct p log)
    simp only [construct_each, List.foldl_cons] at h ⊢
    rw [h]
    simp [construct]

theorem live_objects_construct_each (ps : List Nat) (log : List lifetime_event) :
    live_objects (construct_each ps log) = live_objects log + ps.length := by
  rw [construct_each_eq_append, live_objects_append]
  congr 1
  induction ps with
  | nil => simp [live_objects]
  | cons p rest ih =>
    simp only [List.map_cons, live_objects, ih, List.length_cons]
    push_cast
    ring

/-- The loop of `destroy_cat` for a non-trivial destructor runs the destructor
on the address of each element it passes, in order, when `last` is first
reached after `k` increments and the `k` cursors before it address elements
at non-null addresses. -/
theorem destroy_cat_loop_visits {I R : Type} (ops : cursor_ops I R)
    (address_of : R → Nat) (last : I) :
    ∀ (k fuel : Nat) (first : I) (log : List lifetime_event) (r : Nat → R),
      ops.ne (ops.inc^[k] first) last = false →
      (∀ j, j < k → ops.ne (ops.inc^[j] first) last = true) →
      (∀ j, j < k → ops.deref (ops.inc^[j] first) = some (r j)) →
      (∀ j, j < k → address_of (r j) ≠ nullptr) →
      k < fuel →
      destroy_cat_loop ops address_of false fuel first last log
        = some (log ++ (List.range k).map
            (fun j => lifetime_event.destructor_call (address_of (r j)))) := by
  intro k
  induction k with
  | zero =>
    intro fuel first log r hreach _ _ _ hfuel
    obtain ⟨f, rfl⟩ : ∃ f, fuel = f + 1 := ⟨fuel - 1, by omega⟩
    simp only [Function.iterate_zero, id_eq] at hreach
    simp [destroy_cat_loop, hreach]
  | succ k ih =>
    intro fuel first log r hreach hmin hderef hnonnull hfuel
    obtain ⟨f, rfl⟩ : ∃ f, fuel = f + 1 := ⟨fuel - 1, by omega⟩
    have h0 : ops.ne first last = true := by
      have := hmin 0 (Nat.succ_pos k)
      simpa using this
    have hd0 : ops.deref first = some (r 0) := by
      have := hderef 0 (Nat.succ_pos k)
      simpa using this
    have hn0 : address_of (r 0) ≠ nullptr := hnonnull 0 (Nat.succ_pos k)
    have hstep := ih f (ops.inc first)
      (destroy false (address_of (r 0)) log) (fun j => r (j + 1))
      (by simpa [Function.iterate_succ_apply] using hreach)
      (by
        intro j hj
        have := hmin (j + 1) (by omega)
        simpa [Function.iterate_succ_apply] using this)
      (by
        intro j hj
        have := hderef (j + 1) (by omega)
        simpa [Function.iterate_succ_apply] using this)
      (fun j hj => hnonnull (j + 1) (by omega))
      (by omega)
    simp only [destroy_cat_loop, h0, if_true, hd0, hstep]
    simp only [destroy, destroy_one_nontrivial, hn0, ne_eq, not_false_eq_true, if_true,
      Bool.false_eq_true, if_false, List.range_succ_eq_map, List.map_cons, List.map_map,
      List.append_assoc, List.singleton_append]
    rfl

theorem le_foldr_max (l : List Nat) : ∀ x, x ∈ l → x ≤ l.foldr max 0 := by
  induction l with
  | nil => intro x hx; cases hx
  | cons y rest ih =>
    intro x hx
    simp only [List.foldr_cons]
    rcases List.mem_cons.mp hx with h | h
    · subst h
      exact le_max_left _ _
    · exact le_trans (ih x h) (le_max_right _ _)

/-- The bump allocator hands out a non-null address that is not the address of
a live block. -/
theorem bump_allocator_fresh (h : heap) (bytes p : Nat)
    (hp : bump_allocator h bytes = some p) :
    p ≠ nullptr ∧ p ∉ h.blocks.map Prod.fst := by
  simp only [bump_allocator, Option.some.injEq] at hp
  subst hp
  refine ⟨by simp [nullptr], ?_⟩
  intro hmem
  have := le_foldr_max _ _ hmem
  omega

/-- Releasing a block that was just acquired at a fresh address gives back the
live blocks there were. -/
theorem filter_fresh_block (blocks : List (Nat × Nat)) (p bytes : Nat)
    (hfresh : p ∉ blocks.map Prod.fst) :
    ((p, bytes) :: blocks).filter (fun b => decide (b.1 ≠ p)) = blocks := by
  rw [List.filter_cons_of_neg (by simp)]
  apply List.filter_eq_self.mpr
  intro b hb
  have hne : b.1 ≠ p := by
    intro heq
    exact hfresh (heq ▸ List.mem_map_of_mem Prod.fst hb)
  simpa using hne

/-- One `allocate(n)` followed by `deallocate(result, n)`, for a non-zero `n`
and an underlying allocator that hands out fresh non-null addresses, leaves
the live blocks as they were. -/
theorem allocate_then_deallocate_blocks (sys : heap → Nat → Option Nat)
    (hfresh : ∀ g bytes p, sys g bytes = some p → p ≠ nullptr ∧ p ∉ g.blocks.map Prod.fst)
    (w sizeof_T n : Nat) (hn : n ≠ 0) (h h1 : heap)
    (hrun : allocator.allocate_then_deallocate sys w sizeof_T n h = some h1) :
    h1.blocks = h.blocks := by
  simp only [allocator.allocate_then_deallocate, allocator.allocate_n, hn, if_false,
    operator_new] at hrun
  cases hsys : sys h ((n * sizeof_T) % 2 ^ w) with
  | none => simp [hsys] at hrun
  | some p =>
    obtain ⟨hp0, hpf⟩ := hfresh h _ p hsys
    simp only [hsys, Option.some.injEq, allocator.deallocate_n, hp0, if_false,
      operator_delete] at hrun
    rw [← hrun]
    exact filter_fresh_block h.blocks p _ hpf

theorem repeat_pair_blocks (sys : heap → Nat → Option Nat)
    (hfresh : ∀ g bytes p, sys g bytes = some p → p ≠ nullptr ∧ p ∉ g.blocks.map Prod.fst)
    (w sizeof_T n : Nat) (hn : n ≠ 0) :
    ∀ (k : Nat) (h hk : heap),
      allocator.repeat_pair sys w sizeof_T n k h = some hk → hk.blocks = h.blocks := by
  intro k
  induction k with
  | zero =>
    intro h hk hrun
    simp only [allocator.repeat_pair, Option.some.injEq] at hrun
    rw [← hrun]
  | succ k ih =>
    intro h hk hrun
    simp only [allocator.repeat_pair] at hrun
    cases hone : allocator.allocate_then_deallocate sys w sizeof_T n h with
    | none => simp [hone] at hrun
    | some h1 =>
      simp only [hone] at hrun
      rw [ih h1 hk hrun]
      exact allocate_then_deallocate_blocks sys hfresh w sizeof_T n hn h h1 hone

theorem repeat_pair_succeeds (sys : heap → Nat → Option Nat)
    (hsome : ∀ g bytes, (sys g bytes).isSome = true) (w sizeof_T n : Nat) :
    ∀ (k : Nat) (h : heap), ∃ hk, allocator.repeat_pair sys w sizeof_T n k h = some hk := by
  intro k
  induction k with
  | zero => intro h; exact ⟨h, rfl⟩
  | succ k ih =>
    intro h
    have hone : ∃ h1, allocator.allocate_then_deallocate sys w sizeof_T n h = some h1 := by
      simp only [allocator.allocate_then_deallocate, allocator.allocate_n, operator_new]
      by_cases hn : n = 0
      · simp [hn]
      · obtain ⟨p, hp⟩ := Option.isSome_iff_exists.mp (hsome h ((n * sizeof_T) % 2 ^ w))
        simp [hn, hp]
    obtain ⟨h1, hh1⟩ := hone
    obtain ⟨hk, hhk⟩ := ih h1
    exact ⟨hk, by simp only [allocator.repeat_pair, hh1, hhk]⟩

/-! ### Cursors with positions

A position map `pos` on a cursor type assigns each cursor an integer so that
`!=` compares positions and `++` moves one position ahead; on a random-access
type `+=` moves by its argument and the difference of two cursors is the
difference of their positions. -/

theorem pos_inc_iterate {I R : Type} (ops : cursor_ops I R) (pos : I → Int)
    (hinc : ∀ c, pos (ops.inc c) = pos c + 1) :
    ∀ (k : Nat) (c : I), pos (ops.inc^[k] c) = pos c + k := by
  intro k
  induction k with
  | zero => intro c; simp
  | succ k ih =>
    intro c
    rw [Function.iterate_succ_apply, ih, hinc]
    push_cast
    ring

/-- On a cursor type with positions and a tag other than `output_iterator_tag`,
`distance(first, last)` is the difference of the positions when `last` is not
before `first`, with any fuel above that difference. -/
theorem distance_of_positions {I R : Type} (ops : cursor_ops I R) (pos : I → Int)
    (htag : ops.iterator_category ≠ output_iterator_tag)
    (hne : ∀ c d, ops.ne c d = decide (pos c ≠ pos d))
    (hinc : ∀ c, pos (ops.inc c) = pos c + 1)
    (hdiff : ops.iterator_category = random_access_iterator_tag →
      ∀ c d, ops.diff c d = pos c - pos d)
    (first last : I) (hle : pos first ≤ pos last)
    (fuel : Nat) (hfuel : (pos last - pos first).toNat < fuel) :
    distance ops fuel first last = some (pos last - pos first) := by
  have hk : (((pos last - pos first).toNat : Nat) : Int) = pos last - pos first :=
    Int.toNat_of_nonneg (by omega)
  have hcount : distance_loop ops fuel first last 0 = some (pos last - pos first) := by
    have h := distance_loop_reaches ops last (pos last - pos first).toNat fuel first 0
      (by
        rw [hne, pos_inc_iterate ops pos hinc, hk]
        simp)
      (by
        intro j hj
        rw [hne, pos_inc_iterate ops pos hinc]
        have : pos first + (j : Int) ≠ pos last := by omega
        simpa using this)
      hfuel
    rw [h, hk]
    simp
  cases hcat : ops.iterator_category with
  | output_iterator_tag => exact absurd hcat htag
  | input_iterator_tag =>
    simp only [distance, iterator_category, hcat, select_distance_overload,
      distance_dispatch_input, hcount]
  | forward_iterator_tag =>
    simp only [distance, iterator_category, hcat, select_distance_overload,
      distance_dispatch_input, hcount]
  | bidirectional_iterator_tag =>
    simp only [distance, iterator_category, hcat, select_distance_overload,
      distance_dispatch_input, hcount]
  | random_access_iterator_tag =>
    simp only [distance, iterator_category, hcat, select_distance_overload,
      distance_dispatch_random_access, hdiff hcat]

/-- On a cursor type with positions and a tag other than `output_iterator_tag`,
`advance(c, n)` with `n >= 0` finishes with any fuel above `n` and leaves the
cursor `n` positions ahead. -/
theorem advance_of_positions {I R : Type} (ops : cursor_ops I R) (pos : I → Int)
    (htag : ops.iterator_category ≠ output_iterator_tag)
    (hinc : ∀ c, pos (ops.inc c) = pos c + 1)
    (hadd : ops.iterator_category = random_access_iterator_tag →
      ∀ c n, pos (ops.add_assign c n) = pos c + n)
    (c : I) (n : Int) (hn : 0 ≤ n) (fuel : Nat) (hfuel : n.toNat < fuel) :
    ∃ e, advance ops fuel c n = some e ∧ pos e = pos c + n := by
  have hk : ((n.toNat : Nat) : Int) = n := Int.toNat_of_nonneg hn
  have hloop : advance_loop_inc ops fuel c n = some (ops.inc^[n.toNat] c) := by
    have h := advance_loop_inc_steps ops n.toNat fuel c hfuel
    rwa [hk] at h
  have hpos : pos (ops.inc^[n.toNat] c) = pos c + n := by
    rw [pos_inc_iterate ops pos hinc, hk]
  cases hcat : ops.iterator_category with
  | output_iterator_tag => exact absurd hcat htag
  | input_iterator_tag =>
    refine ⟨ops.inc^[n.toNat] c, ?_, hpos⟩
    simp only [advance, iterator_category, hcat, select_advance_overload,
      advance_dispatch_input, hloop]
  | forward_iterator_tag =>
    refine ⟨ops.inc^[n.toNat] c, ?_, hpos⟩
    simp only [advance, iterator_category, hcat, select_advance_overload,
      advance_dispatch_input, hloop]
  | bidirectional_iterator_tag =>
    refine ⟨ops.inc^[n.toNat] c, ?_, hpos⟩
    simp only [advance, iterator_category, hcat, select_advance_overload,
      advance_dispatch_bidirectional, ge_iff_le, hn, if_true, hloop]
  | random_access_iterator_tag =>
    refine ⟨ops.add_assign c n, ?_, hadd hcat c n⟩
    simp only [advance, iterator_category, hcat, select_advance_overload,
      advance_dispatch_random_access]

/-- The adaptor over a position cursor, incremented `k` times, has its base `k`
positions back. -/
theorem reverse_inc_iterate {α : Type} (t : iterator_tag) (a : List α) :
    ∀ (k : Nat) (b : Int),
      (reverse_iterator.ops (position_ops t a)).inc^[k] (reverse_iterator.mk b)
        = reverse_iterator.mk (b - k) := by
  intro k
  induction k with
  | zero => intro b; simp
  | succ k ih =>
    intro b
    rw [Function.iterate_succ_apply]
    show (reverse_iterator.ops (position_ops t a)).inc^[k] (reverse_iterator.mk (b - 1))
      = reverse_iterator.mk (b - ((k + 1 : Nat) : Int))
    rw [ih]
    congr 1
    push_cast
    ring

/-- On position cursors exactly one of `a < b`, `a == b`, `b < a` holds. -/
theorem position_comparisons_trichotomy {α : Type} (t : iterator_tag) (l : List α)
    (a b : Int) :
    ((position_ops t l).lt a b = true ∧ (position_ops t l).eq a b = false
        ∧ (position_ops t l).lt b a = false)
      ∨ ((position_ops t l).lt a b = false ∧ (position_ops t l).eq a b = true
        ∧ (position_ops t l).lt b a = false)
      ∨ ((position_ops t l).lt a b = false ∧ (position_ops t l).eq a b = false
        ∧ (position_ops t l).lt b a = true) := by
  show (decide (a < b) = true ∧ decide (a = b) = false ∧ decide (b < a) = false)
    ∨ (decide (a < b) = false ∧ decide (a = b) = true ∧ decide (b < a) = false)
    ∨ (decide (a < b) = false ∧ decide (a = b) = false ∧ decide (b < a) = true)
  rcases lt_trichotomy a b with h | h | h
  · exact Or.inl ⟨by simp [h], by simp; omega, by simp; omega⟩
  · exact Or.inr (Or.inl ⟨by simp; omega, by simp [h], by simp; omega⟩)
  · exact Or.inr (Or.inr ⟨by simp; omega, by simp; omega, by simp [h]⟩)

/-- On position cursors `!=` is the negation of `==`. -/
theorem position_ne_is_not_eq {α : Type} (t : iterator_tag) (l : List α) (a b : Int) :
    (position_ops t l).ne a b = !(position_ops t l).eq a b := by
  show decide (a ≠ b) = !decide (a = b)
  simp

/-! ## The claims -/

/-- C1: for every cursor type whose extracted tag is `random_access_iterator_tag`
and every pair `first`, `last`, `distance` selects the random-access overload and
returns the cursor's own `last - first`, whatever the fuel (no loop is run); for
raw addresses at positions `p` and `q` the result is the integer `q - p`, which
is negative when `q` lies before `p`. -/
theorem distance_random_access_is_difference {I R α : Type} (ops : cursor_ops I R)
    (htag : ops.iterator_category = random_access_iterator_tag)
    (fuel : Nat) (first last : I) (a : List α) (p q : Int) :
    select_overload distance_dispatch_overloads (iterator_category ops first)
        = some random_access_iterator_tag
      ∧ distance ops fuel first last = some (ops.diff last first)
      ∧ distance (pointer_ops a) fuel p q = some (q - p)
      ∧ (q < p → ∃ d, distance (pointer_ops a) fuel p q = some d ∧ d < 0) := by
  have hsel : select_overload distance_dispatch_overloads random_access_iterator_tag
      = some random_access_iterator_tag := by decide
  have hd : distance (pointer_ops a) fuel p q = some (q - p) := by
    simp only [distance, iterator_category, pointer_ops, position_ops, hsel,
      distance_dispatch_random_access]
  refine ⟨?_, ?_, hd, fun hlt => ⟨q - p, hd, by omega⟩⟩
  · simp only [iterator_category, htag, hsel]
  · simp only [distance, iterator_category, htag, hsel, distance_dispatch_random_access]

/-- Witness for C1: raw addresses at positions 3 and 1 of a three-element array
are at distance -2. -/
theorem distance_random_access_is_difference_witness :
    (pointer_ops [10, 20, 30]).iterator_category = random_access_iterator_tag
      ∧ distance (pointer_ops [10, 20, 30]) 0 3 1 = some (-2) :=
  ⟨rfl, (distance_random_access_is_difference (pointer_ops [10, 20, 30]) rfl 0 3 1
    [10, 20, 30] 3 1).2.1⟩

/-- C2: for every cursor type tagged input, forward or bidirectional and every
pair `first`, `last` such that `last` is first reached (compares equal under the
cursor's own `!=`) after `k` increments of `first`, `distance` selects the
counting overload; every fuel above `k` lets the loop finish with result `k`,
while `k` or fewer loop tests do not finish it; and `distance(first, first)` is
`0` for a cursor that does not differ from itself. -/
theorem distance_counts_steps {I R : Type} (ops : cursor_ops I R)
    (htag : ops.iterator_category = input_iterator_tag
      ∨ ops.iterator_category = forward_iterator_tag
      ∨ ops.iterator_category = bidirectional_iterator_tag)
    (first last : I) (k : Nat)
    (hreach : ops.ne (ops.inc^[k] first) last = false)
    (hmin : ∀ j, j < k → ops.ne (ops.inc^[j] first) last = true) :
    select_overload distance_dispatch_overloads (iterator_category ops first)
        = some input_iterator_tag
      ∧ (∀ fuel, k < fuel → distance ops fuel first last = some (k : Int))
      ∧ (∀ fuel, fuel ≤ k → distance ops fuel first last = none)
      ∧ (ops.ne first first = false →
          ∀ fuel, 0 < fuel → distance ops fuel first first = some 0) := by
  have hsel : select_overload distance_dispatch_overloads ops.iterator_category
      = some input_iterator_tag := by
    rcases htag with h | h | h <;> rw [h] <;> decide
  have hdist : ∀ fuel a b, distance ops fuel a b = distance_loop ops fuel a b 0 := by
    intro fuel a b
    simp only [distance, iterator_category, hsel, distance_dispatch_input]
  refine ⟨hsel, ?_, ?_, ?_⟩
  · intro fuel hfuel
    rw [hdist, distance_loop_reaches ops last k fuel first 0 hreach hmin hfuel]
    simp
  · intro fuel hfuel
    rw [hdist]
    exact distance_loop_starved ops last fuel first 0
      (fun j hj => hmin j (by omega))
  · intro hself fuel hfuel
    rw [hdist, distance_loop_reaches ops first 0 fuel first 0 (by simpa using hself)
      (fun j hj => absurd hj (Nat.not_lt_zero j)) hfuel]
    simp

/-- Witness for C2: a forward-tagged cursor over a three-element sequence, from
position 0 to position 3, with fuel 4. -/
theorem distance_counts_steps_witness :
    (position_ops forward_iterator_tag [10, 20, 30]).iterator_category
        = forward_iterator_tag
      ∧ (position_ops forward_iterator_tag [10, 20, 30]).ne
          ((position_ops forward_iterator_tag [10, 20, 30]).inc^[3] 0) 3 = false
      ∧ distance (position_ops forward_iterator_tag [10, 20, 30]) 4 0 3 = some 3 :=
  ⟨rfl, by decide,
    (distance_counts_steps (position_ops forward_iterator_tag [10, 20, 30])
      (Or.inr (Or.inl rfl)) 0 3 3 (by decide)
      (by intro j hj; interval_cases j <;> decide)).2.1 4 (by decide)⟩

/-- C3: for every cursor type tagged bidirectional whose `++` and `--` undo each
other, and every cursor type tagged random access whose `+= n` is undone by
`+= -n`, and for every integer `n`, `advance(i, n)` followed by
`advance(i, -n)` finishes (with any fuel above `|n|`) and leaves `i` as it
was; for a cursor that is a position `p` in a sequence, of either tier, the
first call leaves it at `p + n` and the second at `p` again. -/
theorem advance_then_advance_back {I R α : Type} (ops : cursor_ops I R)
    (htag : ops.iterator_category = bidirectional_iterator_tag
      ∨ ops.iterator_category = random_access_iterator_tag)
    (hbidi : ops.iterator_category = bidirectional_iterator_tag →
      (∀ j, ops.dec (ops.inc j) = j) ∧ (∀ j, ops.inc (ops.dec j) = j))
    (hrand : ops.iterator_category = random_access_iterator_tag →
      ∀ j m, ops.add_assign (ops.add_assign j m) (-m) = j)
    (i : I) (n : Int) (fuel : Nat) (hfuel : n.natAbs < fuel)
    (t : iterator_tag)
    (ht : t = bidirectional_iterator_tag ∨ t = random_access_iterator_tag)
    (a : List α) (p : Int) :
    (advance ops fuel i n).bind (fun mid => advance ops fuel mid (-n)) = some i
      ∧ advance (position_ops t a) fuel p n = some (p + n)
      ∧ advance (position_ops t a) fuel (p + n) (-n) = some p := by
  have hselb : select_overload advance_dispatch_overloads bidirectional_iterator_tag
      = some bidirectional_iterator_tag := by decide
  have hselr : select_overload advance_dispatch_overloads random_access_iterator_tag
      = some random_access_iterator_tag := by decide
  have hfuel2 : (-n).natAbs < fuel := by rw [Int.natAbs_neg]; exact hfuel
  refine ⟨?_, ?_, ?_⟩
  · rcases htag with h | h
    · obtain ⟨hdi, hid⟩ := hbidi h
      have hadv : ∀ j m, advance ops fuel j m
          = advance_dispatch_bidirectional ops fuel j m := by
        intro j m
        simp only [advance, iterator_category, h, hselb]
      rw [hadv, advance_dispatch_bidirectional_steps ops i n fuel hfuel, Option.some_bind,
        hadv, advance_dispatch_bidirectional_steps ops _ (-n) fuel hfuel2]
      congr 1
      by_cases hn : 0 ≤ n
      · by_cases hz : n = 0
        · subst hz
          simp
        · have h1 : ¬ (0 ≤ -n) := by omega
          simp only [hn, h1, if_true, if_false, neg_neg]
          exact Function.LeftInverse.iterate hdi _ _
      · have h1 : 0 ≤ -n := by omega
        simp only [hn, h1, if_true, if_false]
        exact Function.LeftInverse.iterate hid _ _
    · have hadv : ∀ j m, advance ops fuel j m = some (ops.add_assign j m) := by
        intro j m
        simp only [advance, iterator_category, h, hselr, advance_dispatch_random_access]
      rw [hadv, Option.some_bind, hadv, hrand h]
  · rcases ht with h | h
    · subst h
      have hadv : advance (position_ops bidirectional_iterator_tag a) fuel p n
          = advance_dispatch_bidirectional (position_ops bidirectional_iterator_tag a)
              fuel p n := by
        simp only [advance, iterator_category, position_ops, hselb]
      rw [hadv, advance_dispatch_bidirectional_steps _ p n fuel hfuel]
      congr 1
      by_cases hn : 0 ≤ n
      · simp only [hn, if_true, position_inc_iterate, Int.toNat_of_nonneg hn]
      · have h1 : 0 ≤ -n := by omega
        simp only [hn, if_false, position_dec_iterate, Int.toNat_of_nonneg h1]
        omega
    · subst h
      simp only [advance, iterator_category, position_ops, hselr,
        advance_dispatch_random_access]
  · rcases ht with h | h
    · subst h
      have hadv : advance (position_ops bidirectional_iterator_tag a) fuel (p + n) (-n)
          = advance_dispatch_bidirectional (position_ops bidirectional_iterator_tag a)
              fuel (p + n) (-n) := by
        simp only [advance, iterator_category, position_ops, hselb]
      rw [hadv, advance_dispatch_bidirectional_steps _ (p + n) (-n) fuel hfuel2]
      congr 1
      by_cases hn : 0 ≤ -n
      · simp only [hn, if_true, position_inc_iterate, Int.toNat_of_nonneg hn]
        omega
      · have h1 : 0 ≤ - -n := by omega
        simp only [hn, if_false, position_dec_iterate, Int.toNat_of_nonneg h1]
        omega
    · subst h
      simp only [advance, iterator_category, position_ops, hselr,
        advance_dispatch_random_access]
      congr 1
      omega

/-- Witness for C3: a bidirectional position cursor at position 1 of a
three-element sequence, advanced by 2 and back. -/
theorem advance_then_advance_back_witness :
    (advance (position_ops bidirectional_iterator_tag [10, 20, 30]) 3 1 2).bind
        (fun mid => advance (position_ops bidirectional_iterator_tag [10, 20, 30]) 3 mid (-2))
        = some 1
      ∧ advance (position_ops bidirectional_iterator_tag [10, 20, 30]) 3 1 2 = some (1 + 2)
      ∧ advance (position_ops bidirectional_iterator_tag [10, 20, 30]) 3 (1 + 2) (-2)
        = some 1 :=
  advance_then_advance_back (position_ops bidirectional_iterator_tag [10, 20, 30])
    (Or.inl rfl)
    (fun _ => ⟨fun j => Int.add_sub_cancel j 1, fun j => Int.sub_add_cancel j 1⟩)
    (fun _ j m => by show j + m + -m = j; omega)
    1 2 3 (by decide) bidirectional_iterator_tag (Or.inl rfl) [10, 20, 30] 1

/-- C4: for every cursor type tagged bidirectional, every cursor `i` and every
integer `n`, `advance(i, n)` selects the bidirectional overload and finishes with
any fuel above `|n|`; it leaves `i` incremented `n` times when `n >= 0` and
decremented `|n|` times when `n < 0`. On a logging cursor at position `c.pos`
the result is at position `c.pos + n` and its log has grown by exactly `n`
increments and nothing else when `n >= 0`, by exactly `|n|` decrements and
nothing else when `n < 0`. -/
theorem advance_bidirectional_steps {I R : Type} (ops : cursor_ops I R)
    (htag : ops.iterator_category = bidirectional_iterator_tag)
    (i : I) (n : Int) (fuel : Nat) (hfuel : n.natAbs < fuel) (c : logging_cursor) :
    select_overload advance_dispatch_overloads (iterator_category ops i)
        = some bidirectional_iterator_tag
      ∧ advance ops fuel i n
        = some (if 0 ≤ n then ops.inc^[n.toNat] i else ops.dec^[(-n).toNat] i)
      ∧ advance (logging_ops bidirectional_iterator_tag) fuel c n
        = some ⟨c.pos + n,
            c.log ++ (if 0 ≤ n then List.replicate n.toNat cursor_event.increment
              else List.replicate (-n).toNat cursor_event.decrement)⟩ := by
  have hsel : select_overload advance_dispatch_overloads bidirectional_iterator_tag
      = some bidirectional_iterator_tag := by decide
  refine ⟨?_, ?_, ?_⟩
  · simp only [iterator_category, htag, hsel]
  · have hadv : advance ops fuel i n = advance_dispatch_bidirectional ops fuel i n := by
      simp only [advance, iterator_category, htag, hsel]
    rw [hadv, advance_dispatch_bidirectional_steps ops i n fuel hfuel]
  · have hadv : advance (logging_ops bidirectional_iterator_tag) fuel c n
        = advance_dispatch_bidirectional (logging_ops bidirectional_iterator_tag)
            fuel c n := by
      simp only [advance, iterator_category, logging_ops, hsel]
    rw [hadv, advance_dispatch_bidirectional_steps _ c n fuel hfuel]
    congr 1
    by_cases hn : 0 ≤ n
    · simp only [hn, if_true, logging_inc_iterate, Int.toNat_of_nonneg hn]
    · have h1 : 0 ≤ -n := by omega
      have h2 : c.pos - -n = c.pos + n := by omega
      simp only [hn, if_false, logging_dec_iterate, Int.toNat_of_nonneg h1, h2]

/-- Witness for C4: a logging bidirectional cursor at position 7, advanced by
-2, is at position 5 after two decrements. -/
theorem advance_bidirectional_steps_witness :
    (logging_ops bidirectional_iterator_tag).iterator_category
        = bidirectional_iterator_tag
      ∧ advance (logging_ops bidirectional_iterator_tag) 3 ⟨7, []⟩ (-2)
        = some ⟨5, [cursor_event.decrement, cursor_event.decrement]⟩ :=
  ⟨rfl, (advance_bidirectional_steps (logging_ops bidirectional_iterator_tag) rfl
    ⟨7, []⟩ (-2) 3 (by decide) ⟨7, []⟩).2.2⟩

/-- C5: for every non-negative `n` and any fuel above `n`: on a cursor type
tagged input or forward, `advance(i, n)` selects the input overload and leaves
`i` incremented exactly `n` times (a logging cursor ends `n` positions ahead
with exactly `n` increments added to its log, and `n = 0` leaves it as it
was); on a cursor type tagged random access it selects the random-access
overload and leaves `i` after the one call `i += n` (a logging cursor records
that single call). -/
theorem advance_input_and_random_access {I R : Type} (ops : cursor_ops I R)
    (i : I) (n : Int) (hn : 0 ≤ n) (fuel : Nat) (hfuel : n.toNat < fuel)
    (t : iterator_tag) (ht : t = input_iterator_tag ∨ t = forward_iterator_tag)
    (c : logging_cursor) :
    (ops.iterator_category = input_iterator_tag
        ∨ ops.iterator_category = forward_iterator_tag →
        select_overload advance_dispatch_overloads (iterator_category ops i)
            = some input_iterator_tag
          ∧ advance ops fuel i n = some (ops.inc^[n.toNat] i))
      ∧ advance (logging_ops t) fuel c n
        = some ⟨c.pos + n, c.log ++ List.replicate n.toNat cursor_event.increment⟩
      ∧ advance (logging_ops t) fuel c 0 = some c
      ∧ (ops.iterator_category = random_access_iterator_tag →
        select_overload advance_dispatch_overloads (iterator_category ops i)
            = some random_access_iterator_tag
          ∧ advance ops fuel i n = some (ops.add_assign i n))
      ∧ advance (logging_ops random_access_iterator_tag) fuel c n
        = some ⟨c.pos + n, c.log ++ [cursor_event.offset_add n]⟩ := by
  have hcast : ((n.toNat : Nat) : Int) = n := Int.toNat_of_nonneg hn
  have hloop : ∀ {J S : Type} (o : cursor_ops J S) (j : J),
      advance_loop_inc o fuel j n = some (o.inc^[n.toNat] j) := by
    intro J S o j
    have h := advance_loop_inc_steps o n.toNat fuel j hfuel
    rwa [hcast] at h
  have hselr : select_overload advance_dispatch_overloads random_access_iterator_tag
      = some random_access_iterator_tag := by decide
  have hseli : ∀ u, u = input_iterator_tag ∨ u = forward_iterator_tag →
      select_overload advance_dispatch_overloads u = some input_iterator_tag := by
    intro u hu
    rcases hu with h | h <;> rw [h] <;> decide
  have hlog : advance (logging_ops t) fuel c n
      = some ⟨c.pos + n, c.log ++ List.replicate n.toNat cursor_event.increment⟩ := by
    have hadv : advance (logging_ops t) fuel c n
        = advance_loop_inc (logging_ops t) fuel c n := by
      simp only [advance, iterator_category, logging_ops, hseli t ht,
        advance_dispatch_input]
    rw [hadv, hloop, logging_inc_iterate, hcast]
  refine ⟨?_, hlog, ?_, ?_, ?_⟩
  · intro htag
    have hs := hseli ops.iterator_category htag
    refine ⟨by simpa only [iterator_category] using hs, ?_⟩
    simp only [advance, iterator_category, hs, advance_dispatch_input]
    exact hloop ops i
  · have hadv : advance (logging_ops t) fuel c 0
        = advance_loop_inc (logging_ops t) fuel c 0 := by
      simp only [advance, iterator_category, logging_ops, hseli t ht,
        advance_dispatch_input]
    have h := advance_loop_inc_steps (logging_ops t) 0 fuel c (by omega)
    rw [hadv]
    simpa using h
  · intro htag
    refine ⟨by simp only [iterator_category, htag, hselr], ?_⟩
    simp only [advance, iterator_category, htag, hselr, advance_dispatch_random_access]
  · simp only [advance, iterator_category, logging_ops, hselr,
      advance_dispatch_random_access]

/-- Witness for C5: a logging forward cursor at position 7 advanced by 2. -/
theorem advance_input_and_random_access_witness :
    (0 : Int) ≤ 2
      ∧ advance (logging_ops forward_iterator_tag) 3 ⟨7, []⟩ 2
        = some ⟨9, [cursor_event.increment, cursor_event.increment]⟩
      ∧ advance (logging_ops random_access_iterator_tag) 3 ⟨7, []⟩ 2
        = some ⟨9, [cursor_event.offset_add 2]⟩ :=
  ⟨by decide,
    (advance_input_and_random_access (logging_ops forward_iterator_tag) ⟨7, []⟩ 2
      (by decide) 3 (by decide) forward_iterator_tag (Or.inr rfl) ⟨7, []⟩).2.1,
    (advance_input_and_random_access (logging_ops forward_iterator_tag) ⟨7, []⟩ 2
      (by decide) 3 (by decide) forward_iterator_tag (Or.inr rfl) ⟨7, []⟩).2.2.2.2⟩

/-- C6: a reverse adaptor built from a cursor `it` dereferences to whatever `it`
decremented once dereferences to, is the same adaptor afterwards, and its
`base()` is `it`. For a sequence `a` and a cursor at position `k` with
`1 <= k <= a.length`, the dereference yields the element in slot `k - 1` with
the value stored there, which is not what the cursor at position `k` itself
dereferences to, and `base()` compares equal to the cursor. -/
theorem reverse_dereference_is_previous {I R α : Type} (ops : cursor_ops I R) (it : I)
    (t : iterator_tag) (a : List α) (k : Nat) (h1 : 1 ≤ k) (h2 : k ≤ a.length) :
    reverse_iterator.operator_star ops (reverse_iterator.mk it)
        = (reverse_iterator.mk it, ops.deref (ops.dec it))
      ∧ (reverse_iterator.mk it).base = it
      ∧ reverse_iterator.operator_star (position_ops t a) (reverse_iterator.mk (k : Int))
        = (reverse_iterator.mk (k : Int),
            some ⟨k - 1, a.get ⟨k - 1, by omega⟩⟩)
      ∧ (reverse_iterator.operator_star (position_ops t a)
            (reverse_iterator.mk (k : Int))).2
          ≠ (position_ops t a).deref (k : Int)
      ∧ (position_ops t a).eq (reverse_iterator.mk (k : Int)).base (k : Int) = true := by
  have hk : k - 1 < a.length := by omega
  have hpos : (0 : Int) ≤ (k : Int) - 1 := by omega
  have hnat : ((k : Int) - 1).toNat = k - 1 := by omega
  have hstar : reverse_iterator.operator_star (position_ops t a)
        (reverse_iterator.mk (k : Int))
      = (reverse_iterator.mk (k : Int), some ⟨k - 1, a.get ⟨k - 1, hk⟩⟩) := by
    simp only [reverse_iterator.operator_star, position_ops, hpos, if_true, hnat,
      List.getElem?_eq_getElem hk, Option.map_some', List.get_eq_getElem]
  refine ⟨rfl, rfl, hstar, ?_, ?_⟩
  · rw [hstar]
    have hk0 : (0 : Int) ≤ (k : Int) := by omega
    simp only [position_ops, hk0, if_true, Int.toNat_ofNat]
    intro h
    cases hget : a[k]? with
    | none => rw [hget] at h; simp at h
    | some v =>
      rw [hget] at h
      simp only [Option.map_some', Option.some.injEq, element_ref.mk.injEq] at h
      omega
  · simp [reverse_iterator.base, position_ops]

/-- Witness for C6: the adaptor built at position 3 (the end) of a three-element
sequence dereferences to slot 2. -/
theorem reverse_dereference_is_previous_witness :
    1 ≤ 3 ∧ 3 ≤ [10, 20, 30].length
      ∧ reverse_iterator.operator_star (pointer_ops [10, 20, 30])
          (reverse_iterator.mk ((3 : Nat) : Int))
        = (reverse_iterator.mk ((3 : Nat) : Int), some ⟨2, 30⟩) :=
  ⟨by decide, by decide,
    (reverse_dereference_is_previous (pointer_ops [10, 20, 30]) 0
      random_access_iterator_tag [10, 20, 30] 3 (by decide) (by decide)).2.2.1⟩

/-- C7: for every reverse adaptor `r` with base `b`: `++r` leaves `r` with base
`--b` and returns that same state; `r++` leaves `r` with base `--b` and returns
a copy of the old `r`, whose base is `b`; `--r` leaves `r` with base `++b` and
returns that same state; `r--` leaves `r` with base `++b` and returns a copy of
the old `r`. For a cursor that is a position `b` the new bases are `b - 1` and
`b + 1`. -/
theorem reverse_step_moves_base {I R α : Type} (ops : cursor_ops I R)
    (r : reverse_iterator I) (t : iterator_tag) (a : List α) (b : Int) :
    ((reverse_iterator.operator_pre_increment ops r).1.base = ops.dec r.base
        ∧ (reverse_iterator.operator_pre_increment ops r).2
          = (reverse_iterator.operator_pre_increment ops r).1)
      ∧ ((reverse_iterator.operator_post_increment ops r).1.base = ops.dec r.base
        ∧ (reverse_iterator.operator_post_increment ops r).2 = r)
      ∧ ((reverse_iterator.operator_pre_decrement ops r).1.base = ops.inc r.base
        ∧ (reverse_iterator.operator_pre_decrement ops r).2
          = (reverse_iterator.operator_pre_decrement ops r).1)
      ∧ ((reverse_iterator.operator_post_decrement ops r).1.base = ops.inc r.base
        ∧ (reverse_iterator.operator_post_decrement ops r).2 = r)
      ∧ ((reverse_iterator.operator_pre_increment (position_ops t a) ⟨b⟩).1.base = b - 1
        ∧ (reverse_iterator.operator_pre_increment (position_ops t a) ⟨b⟩).2.base = b - 1)
      ∧ ((reverse_iterator.operator_post_increment (position_ops t a) ⟨b⟩).1.base = b - 1
        ∧ (reverse_iterator.operator_post_increment (position_ops t a) ⟨b⟩).2.base = b)
      ∧ ((reverse_iterator.operator_pre_decrement (position_ops t a) ⟨b⟩).1.base = b + 1
        ∧ (reverse_iterator.operator_pre_decrement (position_ops t a) ⟨b⟩).2.base = b + 1)
      ∧ ((reverse_iterator.operator_post_decrement (position_ops t a) ⟨b⟩).1.base = b + 1
        ∧ (reverse_iterator.operator_post_decrement (position_ops t a) ⟨b⟩).2.base = b) :=
  ⟨⟨rfl, rfl⟩, ⟨rfl, rfl⟩, ⟨rfl, rfl⟩, ⟨rfl, rfl⟩,
    ⟨rfl, rfl⟩, ⟨rfl, rfl⟩, ⟨rfl, rfl⟩, ⟨rfl, rfl⟩⟩

/-- C8: for every reverse adaptor `r` with base `b` and every integer `n`:
`r + n` has base `b - n` and `r - n` has base `b + n` (the wrapped cursor's own
binary operators), both leaving `r` as it was; `r += n` sets the base to
`b -= n` and `r -= n` sets it to `b += n`; and over a wrapped cursor whose `+= n`
undoes its `-= n`, `r += n` followed by `r -= n` restores `r`. For a cursor
that is a position `b` the bases are the integers `b - n` and `b + n`. -/
theorem reverse_offsets_invert_sign {I R α : Type} (ops : cursor_ops I R)
    (hundo : ∀ j m, ops.add_assign (ops.sub_assign j m) m = j)
    (r : reverse_iterator I) (n : Int) (t : iterator_tag) (a : List α) (b : Int) :
    ((reverse_iterator.operator_plus ops r n).2.base = ops.minus r.base n
        ∧ (reverse_iterator.operator_plus ops r n).1 = r)
      ∧ ((reverse_iterator.operator_minus ops r n).2.base = ops.plus r.base n
        ∧ (reverse_iterator.operator_minus ops r n).1 = r)
      ∧ (reverse_iterator.operator_plus_assign ops r n).1.base = ops.sub_assign r.base n
      ∧ (reverse_iterator.operator_minus_assign ops r n).1.base = ops.add_assign r.base n
      ∧ (reverse_iterator.operator_minus_assign ops
          (reverse_iterator.operator_plus_assign ops r n).1 n).1 = r
      ∧ (reverse_iterator.operator_plus (position_ops t a) ⟨b⟩ n).2.base = b - n
      ∧ (reverse_iterator.operator_minus (position_ops t a) ⟨b⟩ n).2.base = b + n
      ∧ (reverse_iterator.operator_plus_assign (position_ops t a) ⟨b⟩ n).1.base = b - n
      ∧ (reverse_iterator.operator_minus_assign (position_ops t a) ⟨b⟩ n).1.base = b + n
      ∧ (reverse_iterator.operator_minus_assign (position_ops t a)
          (reverse_iterator.operator_plus_assign (position_ops t a) ⟨b⟩ n).1 n).1
        = ⟨b⟩ := by
  refine ⟨⟨rfl, rfl⟩, ⟨rfl, rfl⟩, rfl, rfl, ?_, rfl, rfl, rfl, rfl, ?_⟩
  · show reverse_iterator.mk (ops.add_assign (ops.sub_assign r.current n) n) = r
    rw [hundo]
  · show reverse_iterator.mk (b - n + n) = ⟨b⟩
    rw [Int.sub_add_cancel]

/-- Witness for C8: the adaptor with base 3 over a raw address, offset by 2. -/
theorem reverse_offsets_invert_sign_witness :
    (reverse_iterator.operator_plus (pointer_ops [10, 20, 30]) ⟨3⟩ 2).2.base = 1
      ∧ (reverse_iterator.operator_minus_assign (pointer_ops [10, 20, 30])
          (reverse_iterator.operator_plus_assign (pointer_ops [10, 20, 30]) ⟨3⟩ 2).1 2).1
        = ⟨3⟩ :=
  ⟨by decide,
    (reverse_offsets_invert_sign (pointer_ops [10, 20, 30])
      (fun j m => Int.sub_add_cancel j m) ⟨3⟩ 2 random_access_iterator_tag
      [10, 20, 30] 3).2.2.2.2.1⟩

/-- C9: for every two reverse adaptors, `lhs - rhs` is the wrapped cursor's
`rhs.base() - lhs.base()`; hence over a wrapped cursor on which `j - (j - n)` is
`n` (as it is for positions), `(r + n) - r` is `n` for every adaptor `r` and
every integer `n`. -/
theorem reverse_difference_swaps {I R α : Type} (ops : cursor_ops I R)
    (hdiff : ∀ j m, ops.diff j (ops.minus j m) = m)
    (lhs rhs r : reverse_iterator I) (n : Int)
    (t : iterator_tag) (a : List α) (x y : reverse_iterator Int) :
    reverse_iterator.operator_difference ops lhs rhs = ops.diff rhs.base lhs.base
      ∧ reverse_iterator.operator_difference ops
          (reverse_iterator.operator_plus ops r n).2 r = n
      ∧ reverse_iterator.operator_difference (position_ops t a) x y = y.base - x.base
      ∧ reverse_iterator.operator_difference (position_ops t a)
          (reverse_iterator.operator_plus (position_ops t a) x n).2 x = n := by
  refine ⟨rfl, ?_, rfl, ?_⟩
  · show ops.diff r.current (ops.minus r.current n) = n
    exact hdiff _ _
  · show x.current - (x.current - n) = n
    omega

/-- Witness for C9: adaptors over raw addresses with bases 3 and 1. -/
theorem reverse_difference_swaps_witness :
    reverse_iterator.operator_difference (pointer_ops [10, 20, 30]) ⟨3⟩ ⟨1⟩ = -2
      ∧ reverse_iterator.operator_difference (pointer_ops [10, 20, 30])
          (reverse_iterator.operator_plus (pointer_ops [10, 20, 30]) ⟨3⟩ 2).2 ⟨3⟩ = 2 :=
  ⟨by decide,
    (reverse_difference_swaps (pointer_ops [10, 20, 30])
      (fun j m => by show j - (j - m) = m; omega) ⟨3⟩ ⟨1⟩ ⟨3⟩ 2
      random_access_iterator_tag [10, 20, 30] ⟨3⟩ ⟨1⟩).2.1⟩

/-- C10: for every two reverse adaptors, `lhs == rhs` is the wrapped cursor's
`lhs.base() == rhs.base()` and `lhs < rhs` is the wrapped cursor's
`rhs.base() < lhs.base()`; for cursors that are positions, `lhs == rhs` holds
iff the two bases are the same position and `lhs < rhs` holds iff the base of
`rhs` lies before the base of `lhs`. -/
theorem reverse_comparisons_delegate {I R α : Type} (ops : cursor_ops I R)
    (lhs rhs : reverse_iterator I) (t : iterator_tag) (a : List α)
    (x y : reverse_iterator Int) :
    reverse_iterator.operator_eq ops lhs rhs = ops.eq lhs.base rhs.base
      ∧ reverse_iterator.operator_lt ops lhs rhs = ops.lt rhs.base lhs.base
      ∧ (reverse_iterator.operator_eq (position_ops t a) x y = true ↔ x.base = y.base)
      ∧ (reverse_iterator.operator_lt (position_ops t a) x y = true ↔ y.base < x.base) := by
  refine ⟨rfl, rfl, ?_, ?_⟩
  · simp [reverse_iterator.operator_eq, position_ops]
  · simp [reverse_iterator.operator_lt, position_ops]

/-- C11: every cursor type whose extracted category is `random_access_iterator_tag`
answers true to `is_input_iterator`, `is_forward_iterator`,
`is_bidirectional_iterator` and `is_random_access_iterator`, and raw addresses
`T*` and `const T*` are such types; every cursor type whose extracted category
is `forward_iterator_tag` answers true to `is_input_iterator` and
`is_forward_iterator` and false to `is_bidirectional_iterator` and
`is_random_access_iterator`, and a class that declares that tag is such a type. -/
theorem category_predicate_lattice (T : cursor_type) :
    (iterator_traits T = some (category_member.tag random_access_iterator_tag) →
        is_input_iterator T = true ∧ is_forward_iterator T = true
          ∧ is_bidirectional_iterator T = true ∧ is_random_access_iterator T = true)
      ∧ (iterator_traits T = some (category_member.tag forward_iterator_tag) →
        is_input_iterator T = true ∧ is_forward_iterator T = true
          ∧ is_bidirectional_iterator T = false ∧ is_random_access_iterator T = false)
      ∧ iterator_traits cursor_type.pointer
          = some (category_member.tag random_access_iterator_tag)
      ∧ iterator_traits cursor_type.const_pointer
          = some (category_member.tag random_access_iterator_tag)
      ∧ iterator_traits
          (cursor_type.class_type (some (category_member.tag random_access_iterator_tag)))
          = some (category_member.tag random_access_iterator_tag)
      ∧ iterator_traits
          (cursor_type.class_type (some (category_member.tag forward_iterator_tag)))
          = some (category_member.tag forward_iterator_tag) := by
  refine ⟨?_, ?_, rfl, rfl, rfl, rfl⟩
  · intro h
    simp only [is_input_iterator, is_forward_iterator, is_bidirectional_iterator,
      is_random_access_iterator, has_iterator_cat_of_extracted T _ _ h]
    decide
  · intro h
    simp only [is_input_iterator, is_forward_iterator, is_bidirectional_iterator,
      is_random_access_iterator, has_iterator_cat_of_extracted T _ _ h]
    decide

/-- C12, counterexample: a raw address has the extracted category
`random_access_iterator_tag` and answers false to `is_output_iterator`, so it
does not answer true to all five predicates. -/
theorem random_access_is_not_output :
    iterator_traits cursor_type.pointer
        = some (category_member.tag random_access_iterator_tag)
      ∧ is_output_iterator cursor_type.pointer = false
      ∧ ¬ (is_input_iterator cursor_type.pointer = true
          ∧ is_output_iterator cursor_type.pointer = true
          ∧ is_forward_iterator cursor_type.pointer = true
          ∧ is_bidirectional_iterator cursor_type.pointer = true
          ∧ is_random_access_iterator cursor_type.pointer = true) := by
  decide

/-- C12, amended: a cursor type whose extracted category is
`random_access_iterator_tag` answers true to `is_input_iterator`,
`is_forward_iterator`, `is_bidirectional_iterator` and
`is_random_access_iterator` and false to `is_output_iterator`; one whose
extracted category is `forward_iterator_tag` answers true only to
`is_input_iterator` and `is_forward_iterator`. -/
theorem capability_predicates_by_category (T : cursor_type) :
    (iterator_traits T = some (category_member.tag random_access_iterator_tag) →
        is_input_iterator T = true ∧ is_output_iterator T = false
          ∧ is_forward_iterator T = true ∧ is_bidirectional_iterator T = true
          ∧ is_random_access_iterator T = true)
      ∧ (iterator_traits T = some (category_member.tag forward_iterator_tag) →
        is_input_iterator T = true ∧ is_output_iterator T = false
          ∧ is_forward_iterator T = true ∧ is_bidirectional_iterator T = false
          ∧ is_random_access_iterator T = false) := by
  refine ⟨?_, ?_⟩
  · intro h
    simp only [is_input_iterator, is_output_iterator, is_forward_iterator,
      is_bidirectional_iterator, is_random_access_iterator,
      has_iterator_cat_of_extracted T _ _ h]
    decide
  · intro h
    simp only [is_input_iterator, is_output_iterator, is_forward_iterator,
      is_bidirectional_iterator, is_random_access_iterator,
      has_iterator_cat_of_extracted T _ _ h]
    decide

/-- C13, the code at the failing input: for an element type whose destructor is
not trivial and which does not have namespace `mystl` among its associated
namespaces (a struct declared in the global namespace), lookup does not find
`destroy` in the body of `destroy_cat`, and `destroy(first, last)` has no
result for any cursor type, range, fuel and log. In the scenario of five
objects constructed at addresses 100 to 104 no destructor runs, where the
claim says five destructor calls, one per element. -/
theorem destroy_range_ill_formed_outside_mystl {I R : Type} (ops : cursor_ops I R)
    (address_of : R → Nat) (fuel : Nat) (first last : I) (log : List lifetime_event) :
    destroy_lookup false = false
      ∧ destroy_range ops address_of false false fuel first last log = none
      ∧ destroy_range (position_ops forward_iterator_tag [1, 2, 3, 4, 5])
          (fun e => 100 + e.slot) false false 6 0 5
          (construct_each [100, 101, 102, 103, 104] []) = none
      ∧ destroy_range (position_ops forward_iterator_tag [1, 2, 3, 4, 5])
          (fun e => 100 + e.slot) false false 6 0 5
          (construct_each [100, 101, 102, 103, 104] [])
        ≠ some (construct_each [100, 101, 102, 103, 104] []
            ++ [lifetime_event.destructor_call 100, lifetime_event.destructor_call 101,
              lifetime_event.destructor_call 102, lifetime_event.destructor_call 103,
              lifetime_event.destructor_call 104]) := by
  refine ⟨rfl, rfl, rfl, ?_⟩
  intro h
  cases h

/-- What `destroy(first, last)` does for an element type that has namespace
`mystl` among its associated namespaces, so that lookup finds `destroy`. For a
range `[first, last)` of `N` elements (the cursor first compares equal to
`last` after `N` increments, and the `N` cursors before it address objects at
non-null addresses) of a type whose destructor is not trivial, the call
finishes with any fuel above `N` and appends to the log exactly the `N`
destructor calls on the addresses of the elements, in order from `first` to
`last`: no address occurs twice among them when the elements have distinct
addresses, and the live-object counter drops by `N`, so after `N`
constructions at these addresses it is back at its prior value. For a
trivially destructible element type, whatever its namespace, the log is
unchanged for every fuel, also none, and every pair of cursors: no destructor
runs and the range is not walked. -/
theorem destroy_range_runs_each_destructor_once {I R : Type} (ops : cursor_ops I R)
    (address_of : R → Nat) (first last : I) (N : Nat) (r : Nat → R)
    (log : List lifetime_event)
    (hreach : ops.ne (ops.inc^[N] first) last = false)
    (hmin : ∀ j, j < N → ops.ne (ops.inc^[j] first) last = true)
    (hderef : ∀ j, j < N → ops.deref (ops.inc^[j] first) = some (r j))
    (hnonnull : ∀ j, j < N → address_of (r j) ≠ nullptr)
    (fuel : Nat) (hfuel : N < fuel) :
    destroy_range ops address_of false true fuel first last log
        = some (log ++ (List.range N).map
            (fun j => lifetime_event.destructor_call (address_of (r j))))
      ∧ (destroy_range ops address_of false true fuel first last log).map destructor_calls
        = some (destructor_calls log ++ (List.range N).map (fun j => address_of (r j)))
      ∧ ((∀ i j, i < N → j < N → address_of (r i) = address_of (r j) → i = j) →
          ((List.range N).map (fun j => address_of (r j))).Nodup)
      ∧ (destroy_range ops address_of false true fuel first last log).map live_objects
        = some (live_objects log - N)
      ∧ (∀ log0, log = construct_each ((List.range N).map (fun j => address_of (r j))) log0 →
          (destroy_range ops address_of false true fuel first last log).map live_objects
            = some (live_objects log0))
      ∧ (∀ (mystl_is_associated : Bool) (fuel1 : Nat) (f l : I),
          destroy_range ops address_of true mystl_is_associated fuel1 f l log
            = some log) := by
  have hrun : destroy_range ops address_of false true fuel first last log
      = some (log ++ (List.range N).map
          (fun j => lifetime_event.destructor_call (address_of (r j)))) := by
    simp only [destroy_range, destroy_cat_nontrivial, destroy_lookup, Bool.or_true,
      Bool.false_eq_true, if_false, if_true]
    exact destroy_cat_loop_visits ops address_of last N fuel first log r
      hreach hmin hderef hnonnull hfuel
  have hmap : (List.range N).map
        (fun j => lifetime_event.destructor_call (address_of (r j)))
      = ((List.range N).map (fun j => address_of (r j))).map
          lifetime_event.destructor_call := by
    rw [List.map_map]
    rfl
  have hlive : (destroy_range ops address_of false true fuel first last log).map
        live_objects
      = some (live_objects log - N) := by
    rw [hrun, Option.map_some', hmap, live_objects_append, live_objects_destructor_calls]
    simp only [List.length_map, List.length_range]
    rfl
  refine ⟨hrun, ?_, ?_, hlive, ?_, ?_⟩
  · rw [hrun, Option.map_some', hmap, destructor_calls_append,
      destructor_calls_of_destructor_calls]
  · intro hinj
    rw [List.nodup_map_iff_inj_on (List.nodup_range N)]
    intro i hi j hj heq
    exact hinj i j (List.mem_range.mp hi) (List.mem_range.mp hj) heq
  · intro log0 hlog
    rw [hlive, hlog, live_objects_construct_each]
    simp only [List.length_map, List.length_range]
    congr 1
    ring
  · intro adl fuel1 f l
    simp [destroy_range, destroy_cat_trivial]

/-- An instance of the theorem above: five objects of an element type of
namespace `mystl` constructed at addresses 100 to 104 and destroyed as the
range of a forward cursor over the five-element sequence; the live-object
counter is back at zero. -/
theorem destroy_range_runs_each_destructor_once_witness :
    destroy_range (position_ops forward_iterator_tag [1, 2, 3, 4, 5])
        (fun e => 100 + e.slot) false true 6 0 5
        (construct_each [100, 101, 102, 103, 104] [])
        = some (construct_each [100, 101, 102, 103, 104] []
            ++ [lifetime_event.destructor_call 100, lifetime_event.destructor_call 101,
              lifetime_event.destructor_call 102, lifetime_event.destructor_call 103,
              lifetime_event.destructor_call 104])
      ∧ (destroy_range (position_ops forward_iterator_tag [1, 2, 3, 4, 5])
          (fun e => 100 + e.slot) false true 6 0 5
          (construct_each [100, 101, 102, 103, 104] [])).map live_objects = some 0 :=
  ⟨(destroy_range_runs_each_destructor_once
      (position_ops forward_iterator_tag [1, 2, 3, 4, 5]) (fun e => 100 + e.slot) 0 5 5
      (fun j => ⟨j, [1, 2, 3, 4, 5].getD j 0⟩)
      (construct_each [100, 101, 102, 103, 104] [])
      (by decide)
      (by intro j hj; interval_cases j <;> decide)
      (by intro j hj; interval_cases j <;> decide)
      (by intro j hj; interval_cases j <;> decide)
      6 (by decide)).1,
    (destroy_range_runs_each_destructor_once
      (position_ops forward_iterator_tag [1, 2, 3, 4, 5]) (fun e => 100 + e.slot) 0 5 5
      (fun j => ⟨j, [1, 2, 3, 4, 5].getD j 0⟩)
      (construct_each [100, 101, 102, 103, 104] [])
      (by decide)
      (by intro j hj; interval_cases j <;> decide)
      (by intro j hj; interval_cases j <;> decide)
      (by intro j hj; interval_cases j <;> decide)
      6 (by decide)).2.2.2.2.1 [] rfl⟩

/-- C14: for an element type whose destructor is not trivial and a non-null
`ptr`, `destroy(ptr)` appends exactly one destructor call on `ptr` to the log,
so `construct(ptr, ...)` followed by `destroy(ptr)` adds one constructor call
and one destructor call; for a trivially destructible type `destroy(ptr)`
leaves the log as it was; and `destroy(nullptr)` leaves it as it was for
either kind of type. -/
theorem destroy_single_object (ptr : Nat) (log : List lifetime_event)
    (hptr : ptr ≠ nullptr) :
    destroy false ptr log = log ++ [lifetime_event.destructor_call ptr]
      ∧ destroy false ptr (construct ptr log)
        = log ++ [lifetime_event.constructor_call ptr, lifetime_event.destructor_call ptr]
      ∧ destructor_calls (destroy false ptr (construct ptr log))
        = destructor_calls log ++ [ptr]
      ∧ destroy true ptr log = log
      ∧ (∀ trivially_destructible, destroy trivially_destructible nullptr log = log) := by
  have h1 : ∀ l, destroy false ptr l = l ++ [lifetime_event.destructor_call ptr] := by
    intro l
    simp [destroy, destroy_one_nontrivial, hptr]
  refine ⟨h1 log, ?_, ?_, ?_, ?_⟩
  · rw [h1]
    simp [construct]
  · rw [h1, construct, destructor_calls_append, destructor_calls_append]
    simp [destructor_calls]
  · simp [destroy, destroy_one_trivial]
  · intro td
    cases td <;> simp [destroy, destroy_one_trivial, destroy_one_nontrivial]

/-- Witness for C14: an object constructed at address 100 and destroyed. -/
theorem destroy_single_object_witness :
    (100 : Nat) ≠ nullptr
      ∧ destroy false 100 (construct 100 [])
        = [lifetime_event.constructor_call 100, lifetime_event.destructor_call 100] :=
  ⟨by decide, (destroy_single_object 100 [] (by decide)).2.1⟩

/-- C15: `allocate(0)` returns `nullptr` and leaves the free store, its call log
included, as it was, whatever the underlying allocator would do (also one that
always throws); `deallocate(nullptr)` and `deallocate(nullptr, n)` for every
`n`, in particular `n = 0`, leave the free store and its call log as they
were. -/
theorem allocate_zero_and_deallocate_null (sys : heap → Nat → Option Nat)
    (w sizeof_T n : Nat) (h : heap) :
    allocator.allocate_n sys w sizeof_T 0 h = some (nullptr, h)
      ∧ allocator.allocate_n (fun _ _ => none) w sizeof_T 0 h = some (nullptr, h)
      ∧ allocator.deallocate nullptr h = h
      ∧ allocator.deallocate_n nullptr n h = h
      ∧ allocator.deallocate_n nullptr 0 h = h := by
  refine ⟨?_, ?_, ?_, ?_, ?_⟩ <;>
    simp [allocator.allocate_n, allocator.deallocate, allocator.deallocate_n]

/-- C16, counterexample: with a 64-bit `size_type` and `sizeof(T) = 8`, the
non-zero count `n = 2 ^ 61` makes `allocate(n)` request `0` bytes from the
underlying allocator, not `n * sizeof(T) = 2 ^ 64` bytes, and the block it
returns is smaller than `n` objects. -/
theorem allocate_request_wraps :
    (2 ^ 61 : Nat) ≠ 0 ∧ (2 ^ 61 : Nat) < 2 ^ 64
      ∧ (allocator.allocate_n bump_allocator 64 8 (2 ^ 61) ⟨[], []⟩).map
          (fun res => res.2.calls) = some [heap_call.operator_new 0]
      ∧ (allocator.allocate_n bump_allocator 64 8 (2 ^ 61) ⟨[], []⟩).map
          (fun res => res.2.calls) ≠ some [heap_call.operator_new (2 ^ 61 * 8)]
      ∧ (allocator.allocate_n bump_allocator 64 8 (2 ^ 61) ⟨[], []⟩).map
          (fun res => res.2.blocks) = some [(1, 0)]
      ∧ (0 : Nat) < 2 ^ 61 * 8 := by
  decide

/-- C16, amended: for every non-zero count `n`, `allocate(n)` is the one call of
the underlying allocator for `n * sizeof(T)` reduced modulo `2 ^ w`; when the
product fits in `size_type` the request is exactly `n * sizeof(T)` bytes, and
the call returns the address the underlying allocator gave, the block of that
size now live. `allocate()` is the one call for `sizeof(T)` bytes and returns
the address the underlying allocator gave. -/
theorem allocate_requests_product_when_it_fits (sys : heap → Nat → Option Nat)
    (w sizeof_T n : Nat) (h : heap) (hn : n ≠ 0) (hfit : n * sizeof_T < 2 ^ w) :
    allocator.allocate_n sys w sizeof_T n h = operator_new sys (n * sizeof_T) h
      ∧ (∀ p, sys h (n * sizeof_T) = some p →
          allocator.allocate_n sys w sizeof_T n h
            = some (p, ⟨(p, n * sizeof_T) :: h.blocks,
                h.calls ++ [heap_call.operator_new (n * sizeof_T)]⟩))
      ∧ (∀ m, m ≠ 0 → allocator.allocate_n sys w sizeof_T m h
            = operator_new sys ((m * sizeof_T) % 2 ^ w) h)
      ∧ allocator.allocate sys sizeof_T h = operator_new sys sizeof_T h
      ∧ (∀ p, sys h sizeof_T = some p →
          allocator.allocate sys sizeof_T h
            = some (p, ⟨(p, sizeof_T) :: h.blocks,
                h.calls ++ [heap_call.operator_new sizeof_T]⟩)) := by
  have hmod : (n * sizeof_T) % 2 ^ w = n * sizeof_T := Nat.mod_eq_of_lt hfit
  refine ⟨?_, ?_, ?_, rfl, ?_⟩
  · simp only [allocator.allocate_n, hn, if_false, hmod]
  · intro p hp
    simp only [allocator.allocate_n, hn, if_false, hmod, operator_new, hp]
  · intro m hm
    simp only [allocator.allocate_n, hm, if_false]
  · intro p hp
    simp only [allocator.allocate, operator_new, hp]

/-- Witness for C16: three objects of eight bytes with a 64-bit `size_type`. -/
theorem allocate_requests_product_when_it_fits_witness :
    (3 : Nat) ≠ 0 ∧ 3 * 8 < 2 ^ 64
      ∧ allocator.allocate_n bump_allocator 64 8 3 ⟨[(5, 4)], []⟩
        = some (6, ⟨[(6, 3 * 8), (5, 4)], [heap_call.operator_new (3 * 8)]⟩) :=
  ⟨by decide, by decide,
    (allocate_requests_product_when_it_fits bump_allocator 64 8 3 ⟨[(5, 4)], []⟩
      (by decide) (by decide)).2.1 6 (by decide)⟩

/-- C17: for every non-zero `n` and an underlying allocator that hands out
non-null addresses of no live block, `allocate(n)` followed immediately by
`deallocate(result, n)` leaves the live storage blocks as they were before the
pair, and so does the pair repeated `k` times, for every `k`; when the
underlying allocator never throws, the `k` repetitions all complete. -/
theorem allocate_deallocate_leaks_nothing (sys : heap → Nat → Option Nat)
    (hfresh : ∀ g bytes p, sys g bytes = some p → p ≠ nullptr ∧ p ∉ g.blocks.map Prod.fst)
    (w sizeof_T n : Nat) (hn : n ≠ 0) (h : heap) (k : Nat) :
    (∀ h1, allocator.allocate_then_deallocate sys w sizeof_T n h = some h1 →
        h1.blocks = h.blocks)
      ∧ (∀ hk, allocator.repeat_pair sys w sizeof_T n k h = some hk →
        hk.blocks = h.blocks)
      ∧ ((∀ g bytes, (sys g bytes).isSome = true) →
        ∃ hk, allocator.repeat_pair sys w sizeof_T n k h = some hk
          ∧ hk.blocks = h.blocks) := by
  refine ⟨?_, ?_, ?_⟩
  · intro h1 hrun
    exact allocate_then_deallocate_blocks sys hfresh w sizeof_T n hn h h1 hrun
  · intro hk hrun
    exact repeat_pair_blocks sys hfresh w sizeof_T n hn k h hk hrun
  · intro hsome
    obtain ⟨hk, hrun⟩ := repeat_pair_succeeds sys hsome w sizeof_T n k h
    exact ⟨hk, hrun, repeat_pair_blocks sys hfresh w sizeof_T n hn k h hk hrun⟩

/-- Witness for C17: four repetitions of the pair for three objects of eight
bytes, on a free store with one live block. -/
theorem allocate_deallocate_leaks_nothing_witness :
    (3 : Nat) ≠ 0
      ∧ (allocator.repeat_pair bump_allocator 64 8 3 4 ⟨[(5, 4)], []⟩).map
          (fun g => g.blocks) = some [(5, 4)]
      ∧ ∃ hk, allocator.repeat_pair bump_allocator 64 8 3 4 ⟨[(5, 4)], []⟩ = some hk
          ∧ hk.blocks = [(5, 4)] :=
  ⟨by decide, by decide,
    (allocate_deallocate_leaks_nothing bump_allocator bump_allocator_fresh 64 8 3
      (by decide) ⟨[(5, 4)], []⟩ 4).2.2 (fun _ _ => rfl)⟩

/-- C18: on every cursor type with a tag other than `output_iterator_tag` whose
cursors have positions (`!=` and `==` compare positions, `++` moves one
position ahead and, on a random-access type, `+=` moves by its argument and
`-` is the difference of positions): for `last` not before `first` and enough
fuel, `advance(c, distance(first, last))` on a copy `c` of `first` finishes
and leaves `c` at the position of `last`, where `c == last` holds; and for
every `n >= 0`, `advance(c, n)` leaves `c` at a cursor `e`, `n` positions
ahead, with `distance(c before, e) = n`. -/
theorem distance_and_advance_are_inverse {I R : Type} (ops : cursor_ops I R)
    (pos : I → Int)
    (htag : ops.iterator_category ≠ output_iterator_tag)
    (hne : ∀ c d, ops.ne c d = decide (pos c ≠ pos d))
    (heq : ∀ c d, ops.eq c d = decide (pos c = pos d))
    (hinc : ∀ c, pos (ops.inc c) = pos c + 1)
    (hadd : ops.iterator_category = random_access_iterator_tag →
      ∀ c n, pos (ops.add_assign c n) = pos c + n)
    (hdiff : ops.iterator_category = random_access_iterator_tag →
      ∀ c d, ops.diff c d = pos c - pos d)
    (first last : I) (hle : pos first ≤ pos last)
    (c : I) (n : Int) (hn : 0 ≤ n)
    (fuel : Nat) (hfuel1 : (pos last - pos first).toNat < fuel) (hfuel2 : n.toNat < fuel) :
    (∃ e, (distance ops fuel first last).bind (fun d => advance ops fuel first d) = some e
        ∧ pos e = pos last ∧ ops.eq e last = true ∧ ops.ne e last = false)
      ∧ (∃ e, advance ops fuel c n = some e ∧ pos e = pos c + n
        ∧ distance ops fuel c e = some n) := by
  constructor
  · have hd := distance_of_positions ops pos htag hne hinc hdiff first last hle fuel hfuel1
    obtain ⟨e, he, hpe⟩ := advance_of_positions ops pos htag hinc hadd first
      (pos last - pos first) (by omega) fuel hfuel1
    have hpos : pos e = pos last := by omega
    refine ⟨e, ?_, hpos, ?_, ?_⟩
    · rw [hd, Option.some_bind, he]
    · rw [heq, hpos]
      simp
    · rw [hne, hpos]
      simp
  · obtain ⟨e, he, hpe⟩ := advance_of_positions ops pos htag hinc hadd c n hn fuel hfuel2
    have hd := distance_of_positions ops pos htag hne hinc hdiff c e (by omega) fuel
      (by
        have : pos e - pos c = n := by omega
        rw [this]
        exact hfuel2)
    refine ⟨e, he, hpe, ?_⟩
    rw [hd]
    congr 1
    omega

/-- Witness for C18: a bidirectional position cursor over a three-element
sequence, from position 0 to position 3, and advanced by 2 from position 0. -/
theorem distance_and_advance_are_inverse_witness :
    (distance (position_ops bidirectional_iterator_tag [10, 20, 30]) 4 0 3).bind
        (fun d => advance (position_ops bidirectional_iterator_tag [10, 20, 30]) 4 0 d)
        = some 3
      ∧ ((∃ e, (distance (position_ops bidirectional_iterator_tag [10, 20, 30]) 4 0 3).bind
            (fun d => advance (position_ops bidirectional_iterator_tag [10, 20, 30]) 4 0 d)
            = some e
          ∧ id e = id 3
          ∧ (position_ops bidirectional_iterator_tag [10, 20, 30]).eq e 3 = true
          ∧ (position_ops bidirectional_iterator_tag [10, 20, 30]).ne e 3 = false)
        ∧ (∃ e, advance (position_ops bidirectional_iterator_tag [10, 20, 30]) 4 0 2 = some e
          ∧ id e = id 0 + 2
          ∧ distance (position_ops bidirectional_iterator_tag [10, 20, 30]) 4 0 e
            = some 2)) :=
  ⟨by decide,
    distance_and_advance_are_inverse
      (position_ops bidirectional_iterator_tag [10, 20, 30]) id (by decide)
      (fun _ _ => rfl) (fun _ _ => rfl) (fun _ => rfl) (fun _ _ _ => rfl)
      (fun _ _ _ => rfl) 0 3 (by decide) 0 2 (by decide) 4 (by decide) (by decide)⟩

/-- C19: for a sequence `a` of size `S` and position cursors of bidirectional
or random-access tier, the adaptor `reverse_iterator(end)` incremented `i`
times dereferences to slot `S - 1 - i` with the value stored there, for every
`i < S`; it does not compare equal to `reverse_iterator(begin)` after fewer
than `S` increments and does after exactly `S`; and
`distance(reverse_iterator(end), reverse_iterator(begin))` finishes with any
fuel above `S` and is `S`. -/
theorem reverse_traversal_visits_in_reverse {α : Type} (t : iterator_tag)
    (ht : t = bidirectional_iterator_tag ∨ t = random_access_iterator_tag)
    (a : List α) (fuel : Nat) (hfuel : a.length < fuel) :
    (∀ (i : Nat) (hi : i < a.length),
        (reverse_iterator.ops (position_ops t a)).deref
            ((reverse_iterator.ops (position_ops t a)).inc^[i]
              (reverse_iterator.mk (a.length : Int)))
          = some ⟨a.length - 1 - i, a.get ⟨a.length - 1 - i, by omega⟩⟩)
      ∧ (∀ i, i < a.length →
        reverse_iterator.operator_eq (position_ops t a)
            ((reverse_iterator.ops (position_ops t a)).inc^[i]
              (reverse_iterator.mk (a.length : Int)))
            (reverse_iterator.mk 0) = false)
      ∧ reverse_iterator.operator_eq (position_ops t a)
          ((reverse_iterator.ops (position_ops t a)).inc^[a.length]
            (reverse_iterator.mk (a.length : Int)))
          (reverse_iterator.mk 0) = true
      ∧ distance (reverse_iterator.ops (position_ops t a)) fuel
          (reverse_iterator.mk (a.length : Int)) (reverse_iterator.mk 0)
        = some (a.length : Int) := by
  refine ⟨?_, ?_, ?_, ?_⟩
  · intro i hi
    rw [reverse_inc_iterate]
    have hk : a.length - 1 - i < a.length := by omega
    have hpos : (0 : Int) ≤ (a.length : Int) - (i : Int) - 1 := by omega
    have hnat : ((a.length : Int) - (i : Int) - 1).toNat = a.length - 1 - i := by omega
    show (reverse_iterator.operator_star (position_ops t a)
        (reverse_iterator.mk ((a.length : Int) - (i : Int)))).2 = _
    simp only [reverse_iterator.operator_star, position_ops, hpos, if_true, hnat,
      List.getElem?_eq_getElem hk, Option.map_some', List.get_eq_getElem]
  · intro i hi
    rw [reverse_inc_iterate]
    have hne : ¬ ((a.length : Int) - (i : Int) = 0) := by omega
    simp [reverse_iterator.operator_eq, reverse_iterator.base, position_ops, hne]
  · rw [reverse_inc_iterate]
    simp [reverse_iterator.operator_eq, reverse_iterator.base, position_ops]
  · have htag : (reverse_iterator.ops (position_ops t a)).iterator_category
        ≠ output_iterator_tag := by
      show t ≠ output_iterator_tag
      rcases ht with h | h <;> rw [h] <;> decide
    have h := distance_of_positions (reverse_iterator.ops (position_ops t a))
      (fun r => -r.current) htag
      (by
        intro c d
        simp [reverse_iterator.ops, reverse_iterator.operator_ne,
          reverse_iterator.operator_eq, reverse_iterator.base, position_ops])
      (by
        intro c
        show -(c.current - 1) = -c.current + 1
        ring)
      (by
        intro _ c d
        show d.current - c.current = -c.current - -d.current
        ring)
      (reverse_iterator.mk (a.length : Int)) (reverse_iterator.mk 0)
      (by simp) fuel (by simpa using hfuel)
    simpa using h

/-- Witness for C19: reverse traversal of a three-element array of raw
addresses. -/
theorem reverse_traversal_visits_in_reverse_witness :
    distance (reverse_iterator.ops (pointer_ops [10, 20, 30])) 4
        (reverse_iterator.mk (([10, 20, 30] : List Nat).length : Int))
        (reverse_iterator.mk 0)
        = some (([10, 20, 30] : List Nat).length : Int)
      ∧ (reverse_iterator.ops (pointer_ops [10, 20, 30])).deref
          ((reverse_iterator.ops (pointer_ops [10, 20, 30])).inc^[1]
            (reverse_iterator.mk 3))
        = some ⟨1, 20⟩ :=
  ⟨(reverse_traversal_visits_in_reverse random_access_iterator_tag (Or.inr rfl)
      [10, 20, 30] 4 (by decide)).2.2.2,
    by decide⟩

/-- C20: over a wrapped cursor type on which exactly one of `a < b`, `a == b`,
`b < a` holds for every pair and `!=` is the negation of `==`: `lhs != rhs` is
the wrapped `lhs.base() != rhs.base()`; `lhs > rhs` is the wrapped
`lhs.base() < rhs.base()`; `lhs <= rhs` holds iff `lhs.base()` is after or
equal to `rhs.base()`; `lhs >= rhs` holds iff `lhs.base()` is before or equal
to `rhs.base()`; and exactly one of `lhs < rhs`, `lhs == rhs`, `lhs > rhs`
holds. For adaptors over integer positions these read `!=`, `<`, `>=` and `<=`
on the bases. -/
theorem reverse_derived_comparisons {I R α : Type} (ops : cursor_ops I R)
    (htri : ∀ a b, (ops.lt a b = true ∧ ops.eq a b = false ∧ ops.lt b a = false)
      ∨ (ops.lt a b = false ∧ ops.eq a b = true ∧ ops.lt b a = false)
      ∨ (ops.lt a b = false ∧ ops.eq a b = false ∧ ops.lt b a = true))
    (hne : ∀ a b, ops.ne a b = !ops.eq a b)
    (lhs rhs : reverse_iterator I) (t : iterator_tag) (a : List α)
    (x y : reverse_iterator Int) :
    reverse_iterator.operator_ne ops lhs rhs = ops.ne lhs.base rhs.base
      ∧ reverse_iterator.operator_gt ops lhs rhs = ops.lt lhs.base rhs.base
      ∧ (reverse_iterator.operator_le ops lhs rhs = true
          ↔ (ops.lt rhs.base lhs.base = true ∨ ops.eq lhs.base rhs.base = true))
      ∧ (reverse_iterator.operator_ge ops lhs rhs = true
          ↔ (ops.lt lhs.base rhs.base = true ∨ ops.eq lhs.base rhs.base = true))
      ∧ ((reverse_iterator.operator_lt ops lhs rhs = true
            ∧ reverse_iterator.operator_eq ops lhs rhs = false
            ∧ reverse_iterator.operator_gt ops lhs rhs = false)
          ∨ (reverse_iterator.operator_lt ops lhs rhs = false
            ∧ reverse_iterator.operator_eq ops lhs rhs = true
            ∧ reverse_iterator.operator_gt ops lhs rhs = false)
          ∨ (reverse_iterator.operator_lt ops lhs rhs = false
            ∧ reverse_iterator.operator_eq ops lhs rhs = false
            ∧ reverse_iterator.operator_gt ops lhs rhs = true))
      ∧ (reverse_iterator.operator_ne (position_ops t a) x y = true ↔ x.base ≠ y.base)
      ∧ (reverse_iterator.operator_gt (position_ops t a) x y = true ↔ x.base < y.base)
      ∧ (reverse_iterator.operator_le (position_ops t a) x y = true ↔ x.base ≥ y.base)
      ∧ (reverse_iterator.operator_ge (position_ops t a) x y = true ↔ x.base ≤ y.base) := by
  have h3 := htri lhs.base rhs.base
  refine ⟨?_, rfl, ?_, ?_, ?_, ?_, ?_, ?_, ?_⟩
  · rw [hne]
    rfl
  · show (!ops.lt lhs.base rhs.base) = true ↔ _
    rcases h3 with ⟨h1, h2, h4⟩ | ⟨h1, h2, h4⟩ | ⟨h1, h2, h4⟩ <;> simp [h1, h2, h4]
  · show (!ops.lt rhs.base lhs.base) = true ↔ _
    rcases h3 with ⟨h1, h2, h4⟩ | ⟨h1, h2, h4⟩ | ⟨h1, h2, h4⟩ <;> simp [h1, h2, h4]
  · show (ops.lt rhs.base lhs.base = true ∧ ops.eq lhs.base rhs.base = false
          ∧ ops.lt lhs.base rhs.base = false)
        ∨ (ops.lt rhs.base lhs.base = false ∧ ops.eq lhs.base rhs.base = true
          ∧ ops.lt lhs.base rhs.base = false)
        ∨ (ops.lt rhs.base lhs.base = false ∧ ops.eq lhs.base rhs.base = false
          ∧ ops.lt lhs.base rhs.base = true)
    rcases h3 with ⟨h1, h2, h4⟩ | ⟨h1, h2, h4⟩ | ⟨h1, h2, h4⟩ <;> simp [h1, h2, h4]
  · simp [reverse_iterator.operator_ne, reverse_iterator.operator_eq, position_ops]
  · simp [reverse_iterator.operator_gt, reverse_iterator.operator_lt, position_ops]
  · simp [reverse_iterator.operator_le, reverse_iterator.operator_lt, position_ops]
  · simp [reverse_iterator.operator_ge, reverse_iterator.operator_lt, position_ops]

/-- Witness for C20: adaptors over raw addresses with bases 3 and 1; the first
comes before the second in the reverse order. -/
theorem reverse_derived_comparisons_witness :
    reverse_iterator.operator_lt (pointer_ops [10, 20, 30]) ⟨3⟩ ⟨1⟩ = true
      ∧ reverse_iterator.operator_ne (pointer_ops [10, 20, 30]) ⟨3⟩ ⟨1⟩
        = (pointer_ops [10, 20, 30]).ne 3 1
      ∧ (reverse_iterator.operator_le (pointer_ops [10, 20, 30]) ⟨3⟩ ⟨1⟩ = true
          ↔ (3 : Int) ≥ 1) :=
  ⟨by decide,
    (reverse_derived_comparisons (pointer_ops [10, 20, 30])
      (position_comparisons_trichotomy random_access_iterator_tag [10, 20, 30])
      (position_ne_is_not_eq random_access_iterator_tag [10, 20, 30])
      ⟨3⟩ ⟨1⟩ random_access_iterator_tag [10, 20, 30] ⟨3⟩ ⟨1⟩).1,
    (reverse_derived_comparisons (pointer_ops [10, 20, 30])
      (position_comparisons_trichotomy random_access_iterator_tag [10, 20, 30])
      (position_ne_is_not_eq random_access_iterator_tag [10, 20, 30])
      ⟨3⟩ ⟨1⟩ random_access_iterator_tag [10, 20, 30] ⟨3⟩ ⟨1⟩).2.2.2.2.2.2.2.1⟩

end mystl
